import Mathlib

/-!
Verification of the `blisters` binary playlist format.

The repository has two layers:
* `blister_format` — the typed key-value codec and the length-framed `Map`
  container.  The snapshot under `src/format` holds two superseded historical
  variants of this crate (an EOF-delimited `Map`, a `Value` type without `U64`
  and with tags 0–8); the canonical crate that `src/src` actually compiles
  against (`Value::U64` at tag 3, `Sha1` at tag 9, length-prefixed `Map`
  framing) is not present in the snapshot, so it is modelled here from the
  specification (§3 data model, §4.1 value codec, §4.2 map container).
* `blisters` — `Beatmap` and `Playlist` records, present in the snapshot
  (`src/src/beatmap.rs`, `src/src/playlist.rs`, `src/src/error.rs`,
  `src/src/lib.rs`) and embedded from that source.

Byte streams are `List Nat` with every element `< 256`; machine integers are
`Nat` with explicit bounds; fallible operations return `Except`.
-/

namespace Blister

/-- Little-endian encoding of a 16-bit value, two bytes. -/
def u16le (n : Nat) : List Nat :=
  [n % 256, n / 256 % 256]

/-- Little-endian encoding of a 32-bit value, four bytes. -/
def u32le (n : Nat) : List Nat :=
  [n % 256, n / 256 % 256, n / 2 ^ 16 % 256, n / 2 ^ 24 % 256]

/-- Little-endian encoding of a 64-bit value, eight bytes. -/
def u64le (n : Nat) : List Nat :=
  [n % 256, n / 2 ^ 8 % 256, n / 2 ^ 16 % 256, n / 2 ^ 24 % 256,
   n / 2 ^ 32 % 256, n / 2 ^ 40 % 256, n / 2 ^ 48 % 256, n / 2 ^ 56 % 256]

/-- Errors of the `blister_format` crate (`format/src/error.rs`): I/O errors
(end of stream is the only one a pure byte-list model can produce), invalid
type tag, invalid boolean byte, invalid UTF-8, integer overflow. -/
inductive FErr
  | ioEof
  | invalidDataType (t : Nat)
  | invalidBoolean (b : Nat)
  | invalidUtf8
  | integerOverflow
deriving Repr, DecidableEq

/-- `read_u8`: one byte from the stream. -/
def readU8 : List Nat → Except FErr (Nat × List Nat)
  | [] => .error .ioEof
  | b :: rest => .ok (b, rest)

/-- `read_u16::<LE>`: two bytes, little endian. -/
def readU16 : List Nat → Except FErr (Nat × List Nat)
  | b0 :: b1 :: rest => .ok (b0 + 2 ^ 8 * b1, rest)
  | _ => .error .ioEof

/-- `read_u32::<LE>`: four bytes, little endian. -/
def readU32 : List Nat → Except FErr (Nat × List Nat)
  | b0 :: b1 :: b2 :: b3 :: rest =>
      .ok (b0 + 2 ^ 8 * b1 + 2 ^ 16 * b2 + 2 ^ 24 * b3, rest)
  | _ => .error .ioEof

/-- `read_u64::<LE>`: eight bytes, little endian. -/
def readU64 : List Nat → Except FErr (Nat × List Nat)
  | b0 :: b1 :: b2 :: b3 :: b4 :: b5 :: b6 :: b7 :: rest =>
      .ok (b0 + 2 ^ 8 * b1 + 2 ^ 16 * b2 + 2 ^ 24 * b3 + 2 ^ 32 * b4
            + 2 ^ 40 * b5 + 2 ^ 48 * b6 + 2 ^ 56 * b7, rest)
  | _ => .error .ioEof

/-- `read_exact` into a buffer of `n` bytes. -/
def readExact (n : Nat) (s : List Nat) : Except FErr (List Nat × List Nat) :=
  if n ≤ s.length then .ok (s.take n, s.drop n) else .error .ioEof

/-- The UTF-8 acceptance automaton behind Rust's `String::from_utf8`,
consuming one byte per step: `need` pending continuation bytes, with
`lo`/`hi` bounding the next one (the first continuation byte of a sequence
carries the overlong/surrogate/range restrictions of the lead byte;
subsequent ones are plain `80–BF`). -/
def utf8Go : Nat → Nat → Nat → List Nat → Bool
  | 0, _, _, [] => true
  | _ + 1, _, _, [] => false
  | 0, _, _, b :: rest =>
      if b < 0x80 then utf8Go 0 0 0 rest
      else if b < 0xC2 then false
      else if b ≤ 0xDF then utf8Go 1 0x80 0xBF rest
      else if b = 0xE0 then utf8Go 2 0xA0 0xBF rest
      else if b = 0xED then utf8Go 2 0x80 0x9F rest
      else if b ≤ 0xEF then utf8Go 2 0x80 0xBF rest
      else if b = 0xF0 then utf8Go 3 0x90 0xBF rest
      else if b ≤ 0xF3 then utf8Go 3 0x80 0xBF rest
      else if b = 0xF4 then utf8Go 3 0x80 0x8F rest
      else false
  | need + 1, lo, hi, b :: rest =>
      if lo ≤ b && b ≤ hi then utf8Go need 0x80 0xBF rest else false

/-- UTF-8 validity of a byte sequence, as checked by Rust's
`String::from_utf8`. -/
def validUtf8 (s : List Nat) : Bool := utf8Go 0 0 0 s

/-- Modelled from the spec: the canonical `Value` enum of `blister_format`
(missing from the snapshot; the variants under `src/format` lack `U64`).
Tags: 0 U8, 1 U16, 2 U32, 3 U64, 4 ShortString, 5 LongString, 6 Binary,
7 Bool, 8 Float, 9 FixedHash (`Sha1`, 20 bytes).  Strings are carried as
their UTF-8 bytes (Rust `String` equality is byte equality); a float is
carried as its 32-bit IEEE-754 pattern (`read_f32`/`write_f32` move the raw
little-endian word). -/
inductive Value
  | u8 (v : Nat)
  | u16 (v : Nat)
  | u32 (v : Nat)
  | u64 (v : Nat)
  | shortString (s : List Nat)
  | longString (s : List Nat)
  | binary (b : List Nat)
  | bool (b : Bool)
  | float (bits : Nat)
  | sha1 (h : List Nat)
deriving Repr, DecidableEq

/-- `Value::data_type`: the wire tag of each value kind. -/
def Value.dataType : Value → Nat
  | .u8 _ => 0
  | .u16 _ => 1
  | .u32 _ => 2
  | .u64 _ => 3
  | .shortString _ => 4
  | .longString _ => 5
  | .binary _ => 6
  | .bool _ => 7
  | .float _ => 8
  | .sha1 _ => 9

/-- Well-formedness invariants that the Rust types enforce statically:
integer fields fit their width, byte payloads are bytes, strings are valid
UTF-8, a `Sha1` is exactly 20 bytes.  (Length limits of the wire format are
*not* assumed here; the encoder checks them itself.) -/
def Value.wfV : Value → Bool
  | .u8 v => v < 2 ^ 8
  | .u16 v => v < 2 ^ 16
  | .u32 v => v < 2 ^ 32
  | .u64 v => v < 2 ^ 64
  | .shortString s => s.all (· < 256) && validUtf8 s
  | .longString s => s.all (· < 256) && validUtf8 s
  | .binary b => b.all (· < 256)
  | .bool _ => true
  | .float bits => bits < 2 ^ 32
  | .sha1 h => h.length = 20 && h.all (· < 256)

/-- Modelled from the spec (§4.1, `decode_entry`): the canonical
`ReadExt::read_kv` of `blister_format` — a 4-byte LE key, a 1-byte tag, then
the tag-determined payload; returns the number of bytes consumed together
with the key-value pair.  Tag 3 is an 8-byte LE U64, tag 9 a 20-byte hash;
any tag outside 0–9 is `InvalidDataType`. -/
def readKv (s : List Nat) : Except FErr ((Nat × Nat × Value) × List Nat) := do
  let (key, s1) ← readU32 s
  let (t, s2) ← readU8 s1
  match t with
  | 0 => do
      let (v, s3) ← readU8 s2
      .ok ((4 + 1 + 1, key, .u8 v), s3)
  | 1 => do
      let (v, s3) ← readU16 s2
      .ok ((4 + 1 + 2, key, .u16 v), s3)
  | 2 => do
      let (v, s3) ← readU32 s2
      .ok ((4 + 1 + 4, key, .u32 v), s3)
  | 3 => do
      let (v, s3) ← readU64 s2
      .ok ((4 + 1 + 8, key, .u64 v), s3)
  | 4 => do
      let (len, s3) ← readU8 s2
      let (utf8, s4) ← readExact len s3
      if validUtf8 utf8 then .ok ((4 + 1 + 1 + len, key, .shortString utf8), s4)
      else .error .invalidUtf8
  | 5 => do
      let (len, s3) ← readU16 s2
      let (utf8, s4) ← readExact len s3
      if validUtf8 utf8 then .ok ((4 + 1 + 2 + len, key, .longString utf8), s4)
      else .error .invalidUtf8
  | 6 => do
      let (len, s3) ← readU32 s2
      let (bytes, s4) ← readExact len s3
      .ok ((4 + 1 + 4 + len, key, .binary bytes), s4)
  | 7 => do
      let (v, s3) ← readU8 s2
      match v with
      | 0 => .ok ((4 + 1 + 1, key, .bool false), s3)
      | 1 => .ok ((4 + 1 + 1, key, .bool true), s3)
      | _ => .error (.invalidBoolean v)
  | 8 => do
      let (bits, s3) ← readU32 s2
      .ok ((4 + 1 + 4, key, .float bits), s3)
  | 9 => do
      let (h, s3) ← readExact 20 s2
      .ok ((4 + 1 + 20, key, .sha1 h), s3)
  | t => .error (.invalidDataType t)

/-- Modelled from the spec (§4.1, `encode_entry`): the canonical
`WriteExt::write_kv` — 4-byte LE key, tag byte from `Value::data_type`, then
the payload; a length that does not fit its wire width (255 / 65535 /
2^32−1) is an `IntegerOverflow` error. -/
def writeKv (k : Nat) (v : Value) : Except FErr (List Nat) :=
  match v with
  | .u8 n => .ok (u32le k ++ [0, n])
  | .u16 n => .ok (u32le k ++ 1 :: u16le n)
  | .u32 n => .ok (u32le k ++ 2 :: u32le n)
  | .u64 n => .ok (u32le k ++ 3 :: u64le n)
  | .shortString s =>
      if s.length ≤ 255 then .ok (u32le k ++ 4 :: s.length :: s)
      else .error .integerOverflow
  | .longString s =>
      if s.length ≤ 65535 then .ok (u32le k ++ 5 :: (u16le s.length ++ s))
      else .error .integerOverflow
  | .binary b =>
      if b.length ≤ 2 ^ 32 - 1 then .ok (u32le k ++ 6 :: (u32le b.length ++ b))
      else .error .integerOverflow
  | .bool b => .ok (u32le k ++ [7, if b then 1 else 0])
  | .float bits => .ok (u32le k ++ 8 :: u32le bits)
  | .sha1 h => .ok (u32le k ++ 9 :: h)

/-! ### The `Map` container

`Map` wraps a Rust `HashMap<Key, Value>`: an unordered dictionary with
distinct keys.  It is embedded as an association list whose list order
stands for the (meaningless) iteration order; the `HashMap` invariant of
distinct keys is the `keysNodup` hypothesis carried by the theorems. -/

abbrev EMap := List (Nat × Value)

/-- Distinct-key invariant of the underlying `HashMap`. -/
def keysNodup (m : EMap) : Prop := (m.map Prod.fst).Nodup

instance (m : EMap) : Decidable (keysNodup m) := by
  unfold keysNodup; infer_instance

/-- `HashMap::get`. -/
def lookupKV (m : EMap) (k : Nat) : Option Value :=
  (m.find? (fun e => e.1 == k)).map (·.2)

/-- `HashMap::remove`: drops the binding of `k` (under `keysNodup` there is
at most one). -/
def removeKV (m : EMap) (k : Nat) : EMap :=
  m.filter (fun e => e.1 != k)

/-- `HashMap::insert`: overwrites any existing binding of `k`. -/
def insertKV (m : EMap) (k : Nat) (v : Value) : EMap :=
  removeKV m k ++ [(k, v)]

/-- Rust's `if let Some(x) = field { data.insert(k, wrap(x)); }` pattern
used by `Beatmap::write` and `Playlist::write_with_compression`. -/
def insertOpt {α : Type} (m : EMap) (k : Nat) (wrap : α → Value) :
    Option α → EMap
  | some a => insertKV m k (wrap a)
  | none => m

/-- Well-formedness of a map's contents: every key is a `u32` and every
value satisfies the `Value` invariants. -/
def wfEntries (m : EMap) : Prop :=
  ∀ e ∈ m, e.1 < 2 ^ 32 ∧ e.2.wfV = true

instance (m : EMap) : Decidable (wfEntries m) := by
  unfold wfEntries; infer_instance

/-- Modelled from the spec (§4.2 write): encode all entries into an internal
buffer — the entries in iteration order, each through `write_kv`. -/
def mapEntriesWrite : EMap → Except FErr (List Nat)
  | [] => .ok []
  | (k, v) :: rest => do
      let b ← writeKv k v
      let bs ← mapEntriesWrite rest
      .ok (b ++ bs)

/-- Modelled from the spec (§4.2 write): emit a 4-byte LE byte-length of the
internal buffer followed by the buffer itself (the length must fit in a
`u32`). -/
def mapWrite (m : EMap) : Except FErr (List Nat) := do
  let buf ← mapEntriesWrite m
  if buf.length ≤ 2 ^ 32 - 1 then .ok (u32le buf.length ++ buf)
  else .error .integerOverflow

/-- Modelled from the spec (§4.2 read): decode entries repeatedly from
exactly `remaining` declared bytes until none remain; an entry that would
read past the declared length is a fatal format error.  (`read_kv` always
reports a positive count, so the `0 < n` guard only serves termination.) -/
def mapReadLoop (m : EMap) (s : List Nat) (remaining : Nat) :
    Except FErr (EMap × List Nat) :=
  if remaining = 0 then .ok (m, s)
  else do
    let ((n, k, v), rest) ← readKv s
    if h : 0 < n ∧ n ≤ remaining then
      mapReadLoop (insertKV m k v) rest (remaining - n)
    else .error .ioEof
termination_by remaining
decreasing_by omega

/-- Modelled from the spec (§4.2 read): read the 4-byte LE length, then
decode entries from exactly that many bytes. -/
def mapRead (s : List Nat) : Except FErr (EMap × List Nat) := do
  let (len, s1) ← readU32 s
  mapReadLoop [] s1 len


/-! ### The `blisters` crate (embedded from `src/src`)

Errors of `src/src/error.rs`.  `io` models `Error::IO`, `fmt` models
`Error::Format` (wrapping a `blister_format` error), `integerOverflow`
models the crate-level `Error::IntegerOverflow` produced by `try_into`
failures in `beatmap.rs`/`playlist.rs` themselves. -/

inductive Err
  | io
  | fmt (e : FErr)
  | integerOverflow
  | invalidMagicNumber (bytes : List Nat)
  | invalidPlaylistTitle (v : Option Value)
  | invalidPlaylistAuthor (v : Option Value)
  | invalidPlaylistDescription (v : Option Value)
  | invalidPlaylistCover (v : Option Value)
  | invalidBeatmapType (v : Option Value)
  | invalidBeatmapDateAdded (v : Option Value)
  | invalidBeatmapKey (v : Option Value)
  | invalidBeatmapHash (v : Option Value)
  | invalidBeatmapZip (v : Option Value)
  | invalidBeatmapLevelId (v : Option Value)
  | missingBeatmapKey
  | missingBeatmapHash
  | missingBeatmapZip
  | missingBeatmapLevelId
  | strictModeUnknownBeatmapType (t : Nat)
deriving Repr, DecidableEq

/-- Lift a `blister_format` error into a crate error, as `#[from]` does for
`Error::Format` in `src/src/error.rs`. -/
def liftF {α : Type} : Except FErr α → Except Err α
  | .ok a => .ok a
  | .error e => .error (.fmt e)

/-- Lift an I/O failure of a raw read (`read_u32` on the decompressed
stream in `playlist.rs`) into the crate-level `Error::IO`. -/
def liftRawRead {α : Type} : Except FErr α → Except Err α
  | .ok a => .ok a
  | .error _ => .error .io

/-- `BeatmapType` (`src/src/beatmap.rs` lines 23–32). -/
inductive BeatmapType
  | key
  | hash
  | zip
  | levelId
  | unknown
deriving Repr, DecidableEq

/-- `impl From<BeatmapType> for u8` via `IntoPrimitive` (`#[repr(u8)]`,
`Unknown = 255`). -/
def BeatmapType.toU8 : BeatmapType → Nat
  | .key => 0
  | .hash => 1
  | .zip => 2
  | .levelId => 3
  | .unknown => 255

/-- `BeatmapType::from` (`src/src/beatmap.rs` lines 34–42): `0..=3` map to
the discriminants, everything else to `Unknown`. -/
def BeatmapType.fromU8 (u : Nat) : BeatmapType :=
  match u with
  | 0 => .key
  | 1 => .hash
  | 2 => .zip
  | 3 => .levelId
  | _ => .unknown

/-- `Beatmap` (`src/src/beatmap.rs` lines 10–21).  `date_added` is the
`chrono` timestamp, carried as its Unix second count (an `i64`); the
conversion boundary is out of scope per the spec (§6). -/
structure Beatmap where
  ty : BeatmapType
  dateAdded : Int
  key : Option Nat
  hash : Option (List Nat)
  zip : Option (List Nat)
  levelId : Option (List Nat)
  customData : EMap
deriving Repr, DecidableEq

/-- The field-extraction part of `Beatmap::read` (`src/src/beatmap.rs` lines
100–171): everything after the `Map` has been decoded.  `remove` is the
Rust `data.remove(i)` which both returns and deletes the binding. -/
def Beatmap.fromData (data0 : EMap) (strict : Bool) : Except Err Beatmap := do
  let ty ← match lookupKV data0 0 with
    | some (.u8 u) =>
        let ty := BeatmapType.fromU8 u
        if strict ∧ ty = .unknown then .error (.strictModeUnknownBeatmapType u)
        else .ok ty
    | v => .error (.invalidBeatmapType v)
  let data1 := removeKV data0 0
  let dateAdded ← match lookupKV data1 1 with
    | some (.u64 u) =>
        if u < 2 ^ 63 then .ok (Int.ofNat u) else .error Err.integerOverflow
    | v => .error (.invalidBeatmapDateAdded v)
  let data2 := removeKV data1 1
  let key ← match lookupKV data2 2 with
    | some (.u32 u) => .ok (some u)
    | none => .ok none
    | v => .error (.invalidBeatmapKey v)
  let data3 := removeKV data2 2
  let hash ← match lookupKV data3 3 with
    | some (.sha1 h) => .ok (some h)
    | none => .ok none
    | v => .error (.invalidBeatmapHash v)
  let data4 := removeKV data3 3
  let zip ← match lookupKV data4 4 with
    | some (.binary b) => .ok (some b)
    | none => .ok none
    | v => .error (.invalidBeatmapZip v)
  let data5 := removeKV data4 4
  let levelId ← match lookupKV data5 5 with
    | some (.shortString s) => .ok (some s)
    | none => .ok none
    | v => .error (.invalidBeatmapLevelId v)
  let data6 := removeKV data5 5
  match ty with
  | .key => if key.isNone then .error .missingBeatmapKey else pure ()
  | .hash => if hash.isNone then .error .missingBeatmapHash else pure ()
  | .zip => if zip.isNone then .error .missingBeatmapZip else pure ()
  | .levelId => if levelId.isNone then .error .missingBeatmapLevelId else pure ()
  | .unknown => pure ()
  .ok { ty, dateAdded, key, hash, zip, levelId, customData := data6 }

/-- `Beatmap::read` (`src/src/beatmap.rs` lines 93–171): decode one `Map`
from the stream, then extract the fields.  Returns the record and the
unconsumed remainder of the stream. -/
def Beatmap.read (s : List Nat) (strict : Bool) :
    Except Err (Beatmap × List Nat) := do
  let (data, rest) ← liftF (mapRead s)
  let b ← Beatmap.fromData data strict
  .ok (b, rest)

/-- `Beatmap::write` (`src/src/beatmap.rs` lines 173–204): re-insert the
reserved fields into the retained custom-data map, then write that map.
`date_added.timestamp().try_into()?` fails with the crate-level
`IntegerOverflow` for a negative second count, before anything is written
to the output. -/
def Beatmap.write (b : Beatmap) : Except Err (List Nat) := do
  let data := insertKV b.customData 0 (.u8 b.ty.toU8)
  let date ← if b.dateAdded < 0 then .error Err.integerOverflow
             else .ok b.dateAdded.toNat
  let data := insertKV data 1 (.u64 date)
  let data := insertOpt data 2 Value.u32 b.key
  let data := insertOpt data 3 Value.sha1 b.hash
  let data := insertOpt data 4 Value.binary b.zip
  let data := insertOpt data 5 Value.shortString b.levelId
  liftF (mapWrite data)

/-- The opaque lossless compression boundary of the spec (§6): `flate2`'s
gzip encoder/decoder pair in `src/src/playlist.rs`.  The format core only
relies on `decompress ∘ compress = id`, which theorems take as a
hypothesis. -/
structure Codec where
  compress : List Nat → List Nat
  decompress : List Nat → List Nat

/-- `MAGIC_NUMBER` (`src/src/lib.rs` line 15): the ASCII bytes of
`"Blist.v3"`. -/
def MAGIC_NUMBER : List Nat := [0x42, 0x6C, 0x69, 0x73, 0x74, 0x2E, 0x76, 0x33]

/-- `Playlist` (`src/src/playlist.rs` lines 10–20). -/
structure Playlist where
  title : List Nat
  author : List Nat
  description : Option (List Nat)
  cover : Option (List Nat)
  maps : List Beatmap
  customData : EMap
deriving Repr, DecidableEq

/-- The `for _ in 0..map_count` loop of `Playlist::read` (`src/src/playlist.rs`
lines 69–72). -/
def readMaps (strict : Bool) : Nat → List Nat → Except Err (List Beatmap × List Nat)
  | 0, s => .ok ([], s)
  | n + 1, s => do
      let (b, s1) ← Beatmap.read s strict
      let (bs, s2) ← readMaps strict n s1
      .ok (b :: bs, s2)

/-- `Playlist::read` (`src/src/playlist.rs` lines 34–82): 8 signature bytes
compared against `MAGIC_NUMBER` (mismatch is `InvalidMagicNumber` carrying
the bytes read, before the decoder touches the remainder), then the
decompressed payload: metadata `Map` (fields 0–3 removed), a 4-byte LE map
count, and that many `Beatmap` records. -/
def Playlist.read (c : Codec) (s : List Nat) (strict : Bool) :
    Except Err Playlist := do
  if s.length < 8 then .error .io
  else
    let magic := s.take 8
    if magic ≠ MAGIC_NUMBER then .error (.invalidMagicNumber magic)
    else do
      let payload := c.decompress (s.drop 8)
      let (data0, p1) ← liftF (mapRead payload)
      let title ← match lookupKV data0 0 with
        | some (.shortString t) => .ok t
        | v => .error (.invalidPlaylistTitle v)
      let data1 := removeKV data0 0
      let author ← match lookupKV data1 1 with
        | some (.shortString a) => .ok a
        | v => .error (.invalidPlaylistAuthor v)
      let data2 := removeKV data1 1
      let description ← match lookupKV data2 2 with
        | some (.longString d) => .ok (some d)
        | none => .ok none
        | v => .error (.invalidPlaylistDescription v)
      let data3 := removeKV data2 2
      let cover ← match lookupKV data3 3 with
        | some (.binary b) => .ok (some b)
        | none => .ok none
        | v => .error (.invalidPlaylistCover v)
      let data4 := removeKV data3 3
      let (mapCount, p2) ← liftRawRead (readU32 p1)
      let (maps, _) ← readMaps strict mapCount p2
      .ok { title, author, description, cover, maps, customData := data4 }

/-- The `for map in maps` loop of `Playlist::write_with_compression`
(`src/src/playlist.rs` lines 124–126). -/
def writeMaps : List Beatmap → Except Err (List Nat)
  | [] => .ok []
  | b :: bs => do
      let x ← Beatmap.write b
      let xs ← writeMaps bs
      .ok (x ++ xs)

/-- `Playlist::write_with_compression` (`src/src/playlist.rs` lines
92–130): signature bytes, then the compressed payload — metadata map with
fields 0–3 re-inserted into the retained custom data, 4-byte LE beatmap
count (`try_into` overflow is the crate-level `IntegerOverflow`), and each
beatmap in list order. -/
def Playlist.write (c : Codec) (p : Playlist) : Except Err (List Nat) := do
  let data := insertKV p.customData 0 (.shortString p.title)
  let data := insertKV data 1 (.shortString p.author)
  let data := insertOpt data 2 Value.longString p.description
  let data := insertOpt data 3 Value.binary p.cover
  let body ← liftF (mapWrite data)
  let cnt ← if p.maps.length ≤ 2 ^ 32 - 1 then .ok p.maps.length
            else .error Err.integerOverflow
  let mapsB ← writeMaps p.maps
  .ok (MAGIC_NUMBER ++ c.compress (body ++ u32le cnt ++ mapsB))

/-- Invariants a `Beatmap` value carries in Rust through its types and the
record's documented shape: the custom-data map is a well-formed `HashMap`
whose keys avoid the reserved identifiers 0–5, `date_added` is a
representable timestamp (`i64` seconds), the optional payloads satisfy
their `Value` invariants, and the payload selected by the discriminant is
present. -/
def Beatmap.wfB (b : Beatmap) : Bool :=
  decide (wfEntries b.customData) && decide (keysNodup b.customData) &&
  b.customData.all (fun e => 6 ≤ e.1) &&
  decide (0 ≤ b.dateAdded) && decide (b.dateAdded < 2 ^ 63) &&
  (match b.key with | some u => decide (u < 2 ^ 32) | none => true) &&
  (match b.hash with | some h => (Value.sha1 h).wfV | none => true) &&
  (match b.zip with | some z => (Value.binary z).wfV | none => true) &&
  (match b.levelId with | some s => (Value.shortString s).wfV | none => true) &&
  (match b.ty with
   | .key => b.key.isSome
   | .hash => b.hash.isSome
   | .zip => b.zip.isSome
   | .levelId => b.levelId.isSome
   | .unknown => true)

/-- Invariants of a `Playlist` value: well-formed custom-data `HashMap`
avoiding the reserved identifiers 0–3, well-formed required/optional
fields, and well-formed beatmap entries. -/
def Playlist.wfP (p : Playlist) : Bool :=
  decide (wfEntries p.customData) && decide (keysNodup p.customData) &&
  p.customData.all (fun e => 4 ≤ e.1) &&
  (Value.shortString p.title).wfV &&
  (Value.shortString p.author).wfV &&
  (match p.description with | some d => (Value.longString d).wfV | none => true) &&
  (match p.cover with | some c => (Value.binary c).wfV | none => true) &&
  p.maps.all Beatmap.wfB

/-! ### Primitive decode/encode inverses -/

@[simp] theorem okBind {ε α β : Type} (a : α) (f : α → Except ε β) :
    (Except.ok (ε := ε) a >>= f) = f a := rfl

@[simp] theorem errorBind {ε α β : Type} (e : ε) (f : α → Except ε β) :
    (Except.error (α := α) e >>= f) = .error e := rfl

theorem readU16_u16le (n : Nat) (hn : n < 2 ^ 16) (r : List Nat) :
    readU16 (u16le n ++ r) = .ok (n, r) := by
  simp only [u16le, List.cons_append, List.nil_append, readU16, Except.ok.injEq,
    Prod.mk.injEq, and_true]
  omega

theorem readU32_u32le (n : Nat) (hn : n < 2 ^ 32) (r : List Nat) :
    readU32 (u32le n ++ r) = .ok (n, r) := by
  simp only [u32le, List.cons_append, List.nil_append, readU32, Except.ok.injEq,
    Prod.mk.injEq, and_true]
  omega

theorem readU64_u64le (n : Nat) (hn : n < 2 ^ 64) (r : List Nat) :
    readU64 (u64le n ++ r) = .ok (n, r) := by
  simp only [u64le, List.cons_append, List.nil_append, readU64, Except.ok.injEq,
    Prod.mk.injEq, and_true]
  omega

theorem readExact_append (b r : List Nat) :
    readExact b.length (b ++ r) = .ok (b, r) := by
  simp [readExact, List.take_left, List.drop_left]

/-- Central inverse lemma of the value codec: a successfully encoded entry
decodes back to the same key and value, consuming exactly its own bytes and
reporting its own length as the read count. -/
theorem readKv_writeKv (k : Nat) (v : Value) (bytes r : List Nat)
    (hk : k < 2 ^ 32) (hv : v.wfV = true)
    (hw : writeKv k v = .ok bytes) :
    readKv (bytes ++ r) = .ok ((bytes.length, k, v), r) ∧ 6 ≤ bytes.length := by
  cases v with
  | u8 n =>
    simp only [writeKv, Except.ok.injEq] at hw
    subst hw
    refine ⟨?_, by simp [u32le]⟩
    rw [List.append_assoc]
    simp only [List.cons_append, List.nil_append, readKv]
    rw [readU32_u32le k hk]
    simp [readU8, u32le]
  | u16 n =>
    simp only [writeKv, Except.ok.injEq] at hw
    subst hw
    simp only [Value.wfV, decide_eq_true_eq] at hv
    refine ⟨?_, by simp [u32le, u16le]⟩
    rw [List.append_assoc]
    simp only [List.cons_append, readKv]
    rw [readU32_u32le k hk]
    simp only [okBind, readU8, readU16_u16le n hv]
    simp [u32le, u16le]
  | u32 n =>
    simp only [writeKv, Except.ok.injEq] at hw
    subst hw
    simp only [Value.wfV, decide_eq_true_eq] at hv
    refine ⟨?_, by simp [u32le]⟩
    rw [List.append_assoc]
    simp only [List.cons_append, readKv]
    rw [readU32_u32le k hk]
    simp only [okBind, readU8, readU32_u32le n hv]
    simp [u32le]
  | u64 n =>
    simp only [writeKv, Except.ok.injEq] at hw
    subst hw
    simp only [Value.wfV, decide_eq_true_eq] at hv
    refine ⟨?_, by simp [u32le, u64le]⟩
    rw [List.append_assoc]
    simp only [List.cons_append, readKv]
    rw [readU32_u32le k hk]
    simp only [okBind, readU8, readU64_u64le n hv]
    simp [u32le, u64le]
  | shortString s =>
    simp only [Value.wfV, Bool.and_eq_true] at hv
    simp only [writeKv] at hw
    split at hw
    · rename_i hlen
      simp only [Except.ok.injEq] at hw
      subst hw
      refine ⟨?_, by simp [u32le]⟩
      rw [List.append_assoc]
      simp only [List.cons_append, readKv]
      rw [readU32_u32le k hk]
      simp only [okBind, readU8, readExact_append, hv.2]
      simp [u32le]
      omega
    · exact absurd hw (by simp)
  | longString s =>
    simp only [Value.wfV, Bool.and_eq_true] at hv
    simp only [writeKv] at hw
    split at hw
    · rename_i hlen
      simp only [Except.ok.injEq] at hw
      subst hw
      refine ⟨?_, by simp [u32le, u16le]⟩
      rw [List.append_assoc]
      simp only [List.cons_append, List.append_assoc, readKv]
      rw [readU32_u32le k hk]
      simp only [okBind, readU8, readU16_u16le s.length (by omega : s.length < 2 ^ 16),
        readExact_append, hv.2]
      simp [u32le, u16le]
      omega
    · exact absurd hw (by simp)
  | binary b =>
    simp only [writeKv] at hw
    split at hw
    · rename_i hlen
      simp only [Except.ok.injEq] at hw
      subst hw
      refine ⟨?_, by simp [u32le]⟩
      rw [List.append_assoc]
      simp only [List.cons_append, List.append_assoc, readKv]
      rw [readU32_u32le k hk]
      simp only [okBind, readU8, readU32_u32le b.length (by omega : b.length < 2 ^ 32),
        readExact_append]
      simp [u32le]
      omega
    · exact absurd hw (by simp)
  | bool b =>
    simp only [writeKv, Except.ok.injEq] at hw
    subst hw
    refine ⟨?_, by simp [u32le]⟩
    rw [List.append_assoc]
    simp only [List.cons_append, List.nil_append, readKv]
    rw [readU32_u32le k hk]
    cases b <;> simp [readU8, u32le]
  | float bits =>
    simp only [writeKv, Except.ok.injEq] at hw
    subst hw
    simp only [Value.wfV, decide_eq_true_eq] at hv
    refine ⟨?_, by simp [u32le]⟩
    rw [List.append_assoc]
    simp only [List.cons_append, readKv]
    rw [readU32_u32le k hk]
    simp only [okBind, readU8, readU32_u32le bits hv]
    simp [u32le]
  | sha1 h =>
    simp only [writeKv, Except.ok.injEq] at hw
    subst hw
    simp only [Value.wfV, Bool.and_eq_true, decide_eq_true_eq] at hv
    refine ⟨?_, by simp [u32le, hv.1]⟩
    rw [List.append_assoc]
    simp only [List.cons_append, readKv]
    rw [readU32_u32le k hk]
    simp only [okBind, readU8]
    rw [show (20 : Nat) = h.length from hv.1.symm, readExact_append h r]
    simp [u32le, hv.1]

/-! ### Map lemmas -/

theorem removeKV_eq_self {m : EMap} {k : Nat}
    (h : k ∉ m.map Prod.fst) : removeKV m k = m := by
  induction m with
  | nil => rfl
  | cons e rest ih =>
    simp only [List.map_cons, List.mem_cons, not_or] at h
    simp only [removeKV, List.filter_cons]
    rw [if_pos (by simpa [bne_iff_ne] using Ne.symm h.1)]
    exact congrArg _ (ih h.2)

theorem insertKV_notMem {m : EMap} {k : Nat} (v : Value)
    (h : k ∉ m.map Prod.fst) : insertKV m k v = m ++ [(k, v)] := by
  rw [insertKV, removeKV_eq_self h]

/-- Folding the decoded entries into an (initially empty) map, as
`Map::read` does, reproduces any map with distinct keys. -/
theorem foldInsert_eq (es acc : EMap)
    (hnd : keysNodup es)
    (hdisj : ∀ k ∈ es.map Prod.fst, k ∉ acc.map Prod.fst) :
    es.foldl (fun m e => insertKV m e.1 e.2) acc = acc ++ es := by
  induction es generalizing acc with
  | nil => simp
  | cons e rest ih =>
    have hnd1 : (e.1 :: rest.map Prod.fst).Nodup := by
      simpa [keysNodup, List.map_cons] using hnd
    have hcons := List.nodup_cons.mp hnd1
    have hnd2 : keysNodup rest := hcons.2
    have hhead : e.1 ∉ rest.map Prod.fst := hcons.1
    simp only [List.foldl_cons]
    rw [insertKV_notMem e.2 (hdisj e.1 (by simp))]
    have hdisj2 : ∀ k ∈ rest.map Prod.fst, k ∉ (acc ++ [(e.1, e.2)]).map Prod.fst := by
      intro k hk
      simp only [List.map_append, List.mem_append, List.map_cons, List.map_nil,
        List.mem_singleton, not_or]
      exact ⟨hdisj k (by simp [hk]), fun hke => hhead (hke ▸ hk)⟩
    rw [ih (acc ++ [(e.1, e.2)]) hnd2 hdisj2]
    simp

/-- The entry-decoding loop over the exact bytes produced by
`mapEntriesWrite` reinserts exactly the written entries and stops at the
frame boundary, leaving trailing data untouched. -/
theorem mapReadLoop_entries (es : EMap) :
    ∀ (acc : EMap) (buf extra : List Nat), wfEntries es →
    mapEntriesWrite es = .ok buf →
    mapReadLoop acc (buf ++ extra) buf.length =
      .ok (es.foldl (fun m e => insertKV m e.1 e.2) acc, extra) := by
  induction es with
  | nil =>
    intro acc buf extra _ hw
    simp only [mapEntriesWrite, Except.ok.injEq] at hw
    subst hw
    simp [mapReadLoop]
  | cons e rest ih =>
    intro acc buf extra hwf hw
    obtain ⟨k, v⟩ := e
    simp only [mapEntriesWrite] at hw
    cases hb : writeKv k v with
    | error err => rw [hb] at hw; exact absurd hw (by simp)
    | ok b =>
      rw [hb] at hw
      cases hbs : mapEntriesWrite rest with
      | error err => rw [hbs] at hw; exact absurd hw (by simp)
      | ok bs =>
        rw [hbs] at hw
        simp only [okBind, Except.ok.injEq] at hw
        subst hw
        have hkv := readKv_writeKv k v b (bs ++ extra)
          (hwf (k, v) (by simp)).1 (hwf (k, v) (by simp)).2 hb
        have h6 := hkv.2
        rw [mapReadLoop]
        rw [if_neg (by simp only [List.length_append]; omega)]
        rw [List.append_assoc, hkv.1]
        simp only [okBind]
        rw [dif_pos (show 0 < b.length ∧ b.length ≤ (b ++ bs).length by
          simp only [List.length_append]; omega)]
        have hlen : (b ++ bs).length - b.length = bs.length := by simp
        rw [hlen]
        rw [ih (insertKV acc k v) bs extra (fun e he => hwf e (by simp [he])) hbs]
        simp

/-- Full map round trip: reading back a written map (with the `HashMap`
distinct-key invariant) restores it exactly and consumes exactly its own
frame. -/
theorem mapRead_mapWrite (m : EMap) (bytes extra : List Nat)
    (hnd : keysNodup m) (hwf : wfEntries m)
    (hw : mapWrite m = .ok bytes) :
    mapRead (bytes ++ extra) = .ok (m, extra) := by
  simp only [mapWrite] at hw
  cases hbuf : mapEntriesWrite m with
  | error err => rw [hbuf] at hw; exact absurd hw (by simp)
  | ok buf =>
    rw [hbuf] at hw
    simp only [okBind] at hw
    split at hw
    · rename_i hlen
      simp only [Except.ok.injEq] at hw
      subst hw
      simp only [mapRead, List.append_assoc]
      rw [readU32_u32le buf.length (by omega) (buf ++ extra)]
      simp only [okBind]
      rw [mapReadLoop_entries m [] buf extra hwf hbuf]
      rw [foldInsert_eq m [] hnd (by simp)]
      simp
    · exact absurd hw (by simp)

/-! ### Dictionary algebra -/

theorem lookupKV_cons (e : Nat × Value) (m : EMap) (k : Nat) :
    lookupKV (e :: m) k = if e.1 = k then some e.2 else lookupKV m k := by
  by_cases h : e.1 = k
  · simp [lookupKV, List.find?, h]
  · simp only [lookupKV, List.find?]
    rw [show (e.1 == k) = false by simpa using h]
    simp [h]

theorem lookupKV_append (m1 m2 : EMap) (k : Nat) :
    lookupKV (m1 ++ m2) k =
      ((lookupKV m1 k).orElse fun _ => lookupKV m2 k) := by
  induction m1 with
  | nil => simp [lookupKV]
  | cons e m1 ih =>
    rw [List.cons_append, lookupKV_cons, lookupKV_cons]
    by_cases h : e.1 = k <;> simp [h, ih]

theorem lookupKV_removeKV_self (m : EMap) (k : Nat) :
    lookupKV (removeKV m k) k = none := by
  induction m with
  | nil => rfl
  | cons e m ih =>
    simp only [removeKV, List.filter_cons]
    by_cases h : e.1 = k
    · rw [if_neg (by simp [h])]
      exact ih
    · rw [if_pos (by simpa using h)]
      rw [lookupKV_cons, if_neg h]
      exact ih

theorem lookupKV_removeKV_ne (m : EMap) {a k : Nat} (h : k ≠ a) :
    lookupKV (removeKV m a) k = lookupKV m k := by
  induction m with
  | nil => rfl
  | cons e m ih =>
    simp only [removeKV, List.filter_cons]
    by_cases he : e.1 = a
    · rw [if_neg (by simp [he])]
      rw [lookupKV_cons, if_neg (by omega)]
      exact ih
    · rw [if_pos (by simpa using he)]
      rw [lookupKV_cons, lookupKV_cons]
      by_cases hk : e.1 = k
      · simp [hk]
      · rw [if_neg hk, if_neg hk]
        exact ih

theorem lookupKV_insert_self (m : EMap) (k : Nat) (v : Value) :
    lookupKV (insertKV m k v) k = some v := by
  rw [insertKV, lookupKV_append, lookupKV_removeKV_self]
  simp [lookupKV_cons]

theorem lookupKV_insert_ne (m : EMap) {a k : Nat} (v : Value) (h : k ≠ a) :
    lookupKV (insertKV m a v) k = lookupKV m k := by
  rw [insertKV, lookupKV_append, lookupKV_removeKV_ne m h]
  cases hx : lookupKV m k <;> simp [lookupKV_cons, lookupKV, Ne.symm h]

theorem lookupKV_eq_none {m : EMap} {k : Nat}
    (h : k ∉ m.map Prod.fst) : lookupKV m k = none := by
  induction m with
  | nil => rfl
  | cons e m ih =>
    simp only [List.map_cons, List.mem_cons, not_or] at h
    rw [lookupKV_cons, if_neg (fun hh => h.1 hh.symm)]
    exact ih h.2

theorem removeKV_removeKV (m : EMap) (a b : Nat) :
    removeKV (removeKV m a) b = removeKV (removeKV m b) a := by
  simp only [removeKV, List.filter_filter]
  congr 1
  funext e
  exact Bool.and_comm _ _

theorem removeKV_idem (m : EMap) (k : Nat) :
    removeKV (removeKV m k) k = removeKV m k := by
  simp only [removeKV, List.filter_filter]
  congr 1
  funext e
  exact Bool.and_self _

theorem removeKV_append (m1 m2 : EMap) (k : Nat) :
    removeKV (m1 ++ m2) k = removeKV m1 k ++ removeKV m2 k := by
  simp [removeKV]

theorem removeKV_insert_self (m : EMap) (k : Nat) (v : Value) :
    removeKV (insertKV m k v) k = removeKV m k := by
  rw [insertKV, removeKV_append, removeKV_idem]
  simp [removeKV, List.filter_cons]

theorem removeKV_insert_ne (m : EMap) {a k : Nat} (v : Value) (h : k ≠ a) :
    removeKV (insertKV m a v) k = insertKV (removeKV m k) a v := by
  rw [insertKV, removeKV_append, insertKV, removeKV_removeKV]
  congr 1
  simp [removeKV, List.filter_cons, Ne.symm h]

theorem lookupKV_insertOpt_ne {α : Type} (m : EMap) {a k : Nat}
    (wrap : α → Value) (o : Option α) (h : k ≠ a) :
    lookupKV (insertOpt m a wrap o) k = lookupKV m k := by
  cases o with
  | none => rfl
  | some x => exact lookupKV_insert_ne m _ h

theorem lookupKV_insertOpt_self {α : Type} (m : EMap) (k : Nat)
    (wrap : α → Value) (o : Option α) (hm : lookupKV m k = none) :
    lookupKV (insertOpt m k wrap o) k = o.map wrap := by
  cases o with
  | none => exact hm
  | some x => exact lookupKV_insert_self m k _

theorem removeKV_insertOpt_self {α : Type} (m : EMap) (k : Nat)
    (wrap : α → Value) (o : Option α)
    (hm : removeKV m k = m) :
    removeKV (insertOpt m k wrap o) k = m := by
  cases o with
  | none => exact hm
  | some x => rw [insertOpt, removeKV_insert_self, hm]

theorem removeKV_insertOpt_ne {α : Type} (m : EMap) {a k : Nat}
    (wrap : α → Value) (o : Option α) (h : k ≠ a) :
    removeKV (insertOpt m a wrap o) k = insertOpt (removeKV m k) a wrap o := by
  cases o with
  | none => rfl
  | some x => exact removeKV_insert_ne m _ h

theorem keysNodup_removeKV (m : EMap) (k : Nat) (h : keysNodup m) :
    keysNodup (removeKV m k) :=
  List.Nodup.sublist (List.Sublist.map Prod.fst (List.filter_sublist m)) h

theorem not_mem_keys_removeKV (m : EMap) (k : Nat) :
    k ∉ (removeKV m k).map Prod.fst := by
  intro hmem
  obtain ⟨e, he, hk⟩ := List.mem_map.mp hmem
  have := (List.mem_filter.mp he).2
  rw [hk] at this
  simp at this

theorem keysNodup_insertKV (m : EMap) (k : Nat) (v : Value)
    (h : keysNodup m) : keysNodup (insertKV m k v) := by
  rw [insertKV, keysNodup, List.map_append]
  rw [List.nodup_append]
  refine ⟨keysNodup_removeKV m k h, by simp, ?_⟩
  intro a ha hb
  simp only [List.map_cons, List.map_nil, List.mem_singleton] at hb
  subst hb
  exact not_mem_keys_removeKV m a ha

theorem keysNodup_insertOpt {α : Type} (m : EMap) (k : Nat)
    (wrap : α → Value) (o : Option α) (h : keysNodup m) :
    keysNodup (insertOpt m k wrap o) := by
  cases o with
  | none => exact h
  | some x => exact keysNodup_insertKV m k _ h

theorem wfEntries_insertKV (m : EMap) (k : Nat) (v : Value)
    (h : wfEntries m) (hk : k < 2 ^ 32) (hv : v.wfV = true) :
    wfEntries (insertKV m k v) := by
  intro e he
  rw [insertKV] at he
  rcases List.mem_append.mp he with hl | hr
  · exact h e (List.mem_of_mem_filter hl)
  · simp only [List.mem_singleton] at hr
    subst hr
    exact ⟨hk, hv⟩

theorem wfEntries_insertOpt {α : Type} (m : EMap) (k : Nat)
    (wrap : α → Value) (o : Option α) (h : wfEntries m) (hk : k < 2 ^ 32)
    (hv : ∀ x ∈ o, (wrap x).wfV = true) :
    wfEntries (insertOpt m k wrap o) := by
  cases o with
  | none => exact h
  | some x => exact wfEntries_insertKV m k _ h hk (hv x rfl)

theorem liftF_ok {α : Type} {e : Except FErr α} {a : α} :
    liftF e = .ok a ↔ e = .ok a := by
  cases e <;> simp [liftF]

/-! ### Tag discipline of the value codec -/

theorem readKv_tag_big (b0 b1 b2 b3 t : Nat) (r : List Nat) (ht : 10 ≤ t) :
    readKv (b0 :: b1 :: b2 :: b3 :: t :: r) = .error (.invalidDataType t) := by
  simp only [readKv, readU32, readU8, okBind]
  rcases t with _|_|_|_|_|_|_|_|_|_|t
  any_goals omega
  rfl

/-- `InvalidDataType` arises only from a tag byte outside 0–9. -/
theorem readKv_invalidDataType {s : List Nat} {t : Nat}
    (h : readKv s = .error (.invalidDataType t)) : 10 ≤ t := by
  rcases s with _ | ⟨b0, _ | ⟨b1, _ | ⟨b2, _ | ⟨b3, _ | ⟨tag, r⟩⟩⟩⟩⟩
  iterate 4 · simp [readKv, readU32] at h
  · simp [readKv, readU32, readU8] at h
  simp only [readKv, readU32, readU8, okBind] at h
  rcases tag with _|_|_|_|_|_|_|_|_|_|tag
  · rcases r with _ | ⟨x, r⟩ <;> simp [readU8] at h
  · rcases r with _ | ⟨a, _ | ⟨b, r⟩⟩ <;> simp [readU16] at h
  · rcases r with _ | ⟨a, _ | ⟨b, _ | ⟨c, _ | ⟨d, r⟩⟩⟩⟩ <;> simp [readU32] at h
  · rcases r with _ | ⟨a1, _ | ⟨a2, _ | ⟨a3, _ | ⟨a4, _ | ⟨a5, _ | ⟨a6, _ | ⟨a7, _ | ⟨a8, r⟩⟩⟩⟩⟩⟩⟩⟩ <;>
      simp [readU64] at h
  · rcases r with _ | ⟨len, r⟩
    · simp [readU8] at h
    · simp only [readU8, okBind, readExact] at h
      split at h
      · simp only [okBind] at h
        split at h <;> simp at h
      · simp at h
  · rcases r with _ | ⟨a, _ | ⟨b, r⟩⟩
    iterate 2 · simp [readU16] at h
    simp only [readU16, okBind, readExact] at h
    split at h
    · simp only [okBind] at h
      split at h <;> simp at h
    · simp at h
  · rcases r with _ | ⟨a, _ | ⟨b, _ | ⟨c, _ | ⟨d, r⟩⟩⟩⟩
    iterate 4 · simp [readU32] at h
    simp only [readU32, okBind, readExact] at h
    split at h <;> simp at h
  · rcases r with _ | ⟨v, r⟩
    · simp [readU8] at h
    · simp only [readU8, okBind] at h
      rcases v with _|_|v <;> simp at h
  · rcases r with _ | ⟨a, _ | ⟨b, _ | ⟨c, _ | ⟨d, r⟩⟩⟩⟩ <;> simp [readU32] at h
  · simp only [readExact] at h
    split at h <;> simp at h
  · simp only [Except.error.injEq, FErr.invalidDataType.injEq] at h
    omega

/-- Whatever tag byte a stream carries, a successful decode yields a value
whose `data_type` is exactly that tag. -/
theorem readKv_ok_dataType {b0 b1 b2 b3 t : Nat} {r : List Nat}
    {out : (Nat × Nat × Value) × List Nat}
    (h : readKv (b0 :: b1 :: b2 :: b3 :: t :: r) = .ok out) :
    out.1.2.2.dataType = t := by
  simp only [readKv, readU32, readU8, okBind] at h
  rcases t with _|_|_|_|_|_|_|_|_|_|t
  · rcases r with _ | ⟨x, r⟩
    · simp [readU8] at h
    · simp only [readU8, okBind, Except.ok.injEq] at h
      subst h; rfl
  · rcases r with _ | ⟨a, _ | ⟨b, r⟩⟩
    iterate 2 · simp [readU16] at h
    simp only [readU16, okBind, Except.ok.injEq] at h
    subst h; rfl
  · rcases r with _ | ⟨a, _ | ⟨b, _ | ⟨c, _ | ⟨d, r⟩⟩⟩⟩
    iterate 4 · simp [readU32] at h
    simp only [readU32, okBind, Except.ok.injEq] at h
    subst h; rfl
  · rcases r with _ | ⟨a1, _ | ⟨a2, _ | ⟨a3, _ | ⟨a4, _ | ⟨a5, _ | ⟨a6, _ | ⟨a7, _ | ⟨a8, r⟩⟩⟩⟩⟩⟩⟩⟩
    iterate 8 · simp [readU64] at h
    simp only [readU64, okBind, Except.ok.injEq] at h
    subst h; rfl
  · rcases r with _ | ⟨len, r⟩
    · simp [readU8] at h
    · simp only [readU8, okBind, readExact] at h
      split at h
      · simp only [okBind] at h
        split at h
        · simp only [Except.ok.injEq] at h
          subst h; rfl
        · simp at h
      · simp at h
  · rcases r with _ | ⟨a, _ | ⟨b, r⟩⟩
    iterate 2 · simp [readU16] at h
    simp only [readU16, okBind, readExact] at h
    split at h
    · simp only [okBind] at h
      split at h
      · simp only [Except.ok.injEq] at h
        subst h; rfl
      · simp at h
    · simp at h
  · rcases r with _ | ⟨a, _ | ⟨b, _ | ⟨c, _ | ⟨d, r⟩⟩⟩⟩
    iterate 4 · simp [readU32] at h
    simp only [readU32, okBind, readExact] at h
    split at h
    · simp only [okBind, Except.ok.injEq] at h
      subst h; rfl
    · simp at h
  · rcases r with _ | ⟨v, r⟩
    · simp [readU8] at h
    · simp only [readU8, okBind] at h
      rcases v with _|_|v
      · simp only [Except.ok.injEq] at h
        subst h; rfl
      · simp only [Except.ok.injEq] at h
        subst h; rfl
      · simp at h
  · rcases r with _ | ⟨a, _ | ⟨b, _ | ⟨c, _ | ⟨d, r⟩⟩⟩⟩
    iterate 4 · simp [readU32] at h
    simp only [readU32, okBind, Except.ok.injEq] at h
    subst h; rfl
  · simp only [readExact] at h
    split at h
    · simp only [okBind, Except.ok.injEq] at h
      subst h; rfl
    · simp at h
  · simp at h

/-- The encoder emits the `data_type` tag (always 0–9) right after the
4-byte key. -/
theorem writeKv_shape {k : Nat} {v : Value} {bytes : List Nat}
    (h : writeKv k v = .ok bytes) :
    (∃ payload, bytes = u32le k ++ v.dataType :: payload) ∧ v.dataType ≤ 9 := by
  cases v <;> simp only [writeKv, Except.ok.injEq] at h
  case shortString s =>
    split at h
    · simp only [Except.ok.injEq] at h
      exact ⟨⟨_, h.symm⟩, by simp [Value.dataType]⟩
    · exact absurd h (by simp)
  case longString s =>
    split at h
    · simp only [Except.ok.injEq] at h
      exact ⟨⟨_, h.symm⟩, by simp [Value.dataType]⟩
    · exact absurd h (by simp)
  case binary b =>
    split at h
    · simp only [Except.ok.injEq] at h
      exact ⟨⟨_, h.symm⟩, by simp [Value.dataType]⟩
    · exact absurd h (by simp)
  all_goals subst h
  all_goals exact ⟨⟨_, rfl⟩, by simp [Value.dataType]⟩

/-! ### Facts used by concrete witnesses -/

theorem validUtf8_replicate (n : Nat) :
    validUtf8 (List.replicate n 97) = true := by
  induction n with
  | zero => rfl
  | succ n ih =>
    rw [List.replicate_succ]
    show utf8Go 0 0 0 (97 :: List.replicate n 97) = true
    rw [utf8Go]
    norm_num
    exact ih

theorem all_lt256_replicate (n c : Nat) (hc : c < 256) :
    (List.replicate n c).all (· < 256) = true := by
  rw [List.all_eq_true]
  intro x hx
  have := List.eq_of_mem_replicate hx
  subst this
  simpa using hc

theorem wfV_longString_replicate (n : Nat) :
    (Value.longString (List.replicate n 97)).wfV = true := by
  simp [Value.wfV, validUtf8_replicate, all_lt256_replicate n 97 (by omega)]

theorem wfV_shortString_replicate (n : Nat) :
    (Value.shortString (List.replicate n 97)).wfV = true := by
  simp [Value.wfV, validUtf8_replicate, all_lt256_replicate n 97 (by omega)]

/-- Dictionary content does not depend on entry order: permuted entry lists
with distinct keys denote the same key→value function. -/
theorem lookupKV_perm {m1 m2 : EMap} (hp : m1.Perm m2) :
    keysNodup m1 → ∀ k, lookupKV m1 k = lookupKV m2 k := by
  induction hp with
  | nil => intro _ k; rfl
  | cons x hp ih =>
    intro hnd k
    rename_i l1 l2
    have hnd1 : (x.1 :: l1.map Prod.fst).Nodup := by
      simpa [keysNodup, List.map_cons] using hnd
    rw [lookupKV_cons, lookupKV_cons]
    by_cases hx : x.1 = k
    · simp [hx]
    · rw [if_neg hx, if_neg hx]
      exact ih (List.nodup_cons.mp hnd1).2 k
  | swap x y l =>
    intro hnd k
    have hnd1 : (y.1 :: x.1 :: l.map Prod.fst).Nodup := by
      simpa [keysNodup, List.map_cons] using hnd
    have hxy : y.1 ≠ x.1 := by
      have := (List.nodup_cons.mp hnd1).1
      simp only [List.mem_cons, not_or] at this
      exact this.1
    rw [lookupKV_cons, lookupKV_cons, lookupKV_cons, lookupKV_cons]
    by_cases hy : y.1 = k <;> by_cases hx : x.1 = k
    · exact absurd (hy.trans hx.symm) hxy
    · simp [hy, hx]
    · simp [hy, hx]
    · simp [hy, hx]
  | trans hp1 hp2 ih1 ih2 =>
    intro hnd k
    have hnd2 := (List.Perm.map Prod.fst hp1).nodup hnd
    exact (ih1 hnd k).trans (ih2 hnd2 k)

/-! ### The claims -/

/-- C1: for every `Value` of every kind in the data model (tags 0–9),
encoding it as a key-value entry and then decoding the produced bytes
yields the identical key and value (and consumes exactly the encoded
bytes).  Boundary payload lengths — empty string, 255-byte ShortString,
65535-byte LongString, empty Binary — are exercised by the witness. -/
theorem C1_value_roundtrip (k : Nat) (v : Value) (bytes rest : List Nat)
    (hk : k < 2 ^ 32) (hv : v.wfV = true) (hw : writeKv k v = .ok bytes) :
    readKv (bytes ++ rest) = .ok ((bytes.length, k, v), rest) :=
  (readKv_writeKv k v bytes rest hk hv hw).1

/-- Witness for C1 at every tag 0–9 and at the boundary payload lengths. -/
theorem C1_value_roundtrip_witness :
    (∃ b, writeKv 1 (.u8 7) = .ok b ∧
      readKv (b ++ [9]) = .ok ((b.length, 1, .u8 7), [9])) ∧
    (∃ b, writeKv 2 (.u16 65535) = .ok b ∧
      readKv (b ++ []) = .ok ((b.length, 2, .u16 65535), [])) ∧
    (∃ b, writeKv 3 (.u32 2112) = .ok b ∧
      readKv (b ++ []) = .ok ((b.length, 3, .u32 2112), [])) ∧
    (∃ b, writeKv 4 (.u64 (2 ^ 64 - 1)) = .ok b ∧
      readKv (b ++ []) = .ok ((b.length, 4, .u64 (2 ^ 64 - 1)), [])) ∧
    (∃ b, writeKv 5 (.shortString []) = .ok b ∧
      readKv (b ++ []) = .ok ((b.length, 5, .shortString []), [])) ∧
    (∃ b, writeKv 6 (.shortString (List.replicate 255 97)) = .ok b ∧
      readKv (b ++ []) = .ok ((b.length, 6, .shortString (List.replicate 255 97)), [])) ∧
    (∃ b, writeKv 7 (.longString (List.replicate 65535 97)) = .ok b ∧
      readKv (b ++ []) = .ok ((b.length, 7, .longString (List.replicate 65535 97)), [])) ∧
    (∃ b, writeKv 8 (.binary []) = .ok b ∧
      readKv (b ++ []) = .ok ((b.length, 8, .binary []), [])) ∧
    (∃ b, writeKv 9 (.bool true) = .ok b ∧
      readKv (b ++ []) = .ok ((b.length, 9, .bool true), [])) ∧
    (∃ b, writeKv 10 (.float 1065353216) = .ok b ∧
      readKv (b ++ []) = .ok ((b.length, 10, .float 1065353216), [])) ∧
    (∃ b, writeKv 11 (.sha1 (List.replicate 20 4)) = .ok b ∧
      readKv (b ++ []) = .ok ((b.length, 11, .sha1 (List.replicate 20 4)), [])) := by
  have hw6 : writeKv 6 (.shortString (List.replicate 255 97)) =
      .ok (u32le 6 ++ 4 :: 255 :: List.replicate 255 97) := by
    simp only [writeKv, List.length_replicate]
    norm_num
  have hw7 : writeKv 7 (.longString (List.replicate 65535 97)) =
      .ok (u32le 7 ++ 5 :: (u16le 65535 ++ List.replicate 65535 97)) := by
    simp only [writeKv, List.length_replicate]
    norm_num
  refine ⟨⟨_, rfl, C1_value_roundtrip _ _ _ _ (by decide) (by decide) rfl⟩,
          ⟨_, rfl, C1_value_roundtrip _ _ _ _ (by decide) (by decide) rfl⟩,
          ⟨_, rfl, C1_value_roundtrip _ _ _ _ (by decide) (by decide) rfl⟩,
          ⟨_, rfl, C1_value_roundtrip _ _ _ _ (by decide) (by decide) rfl⟩,
          ⟨_, rfl, C1_value_roundtrip _ _ _ _ (by decide) (by decide) rfl⟩,
          ⟨_, hw6, C1_value_roundtrip _ _ _ _ (by decide)
            (wfV_shortString_replicate 255) hw6⟩,
          ⟨_, hw7, C1_value_roundtrip _ _ _ _ (by decide)
            (wfV_longString_replicate 65535) hw7⟩,
          ⟨_, rfl, C1_value_roundtrip _ _ _ _ (by decide) (by decide) rfl⟩,
          ⟨_, rfl, C1_value_roundtrip _ _ _ _ (by decide) (by decide) rfl⟩,
          ⟨_, rfl, C1_value_roundtrip _ _ _ _ (by decide) (by decide) rfl⟩,
          ⟨_, rfl, C1_value_roundtrip _ _ _ _ (by decide) (by decide) rfl⟩⟩

/-- C4: decoding fails with `InvalidDataType` exactly when the tag byte is
outside 0–9; for every tag in 0–9 a successful decode yields the value kind
of the data-model table (`data_type` of the result equals the tag; in
particular tag 3 is an 8-byte LE U64 and tag 9 a 20-byte hash); encoding
never emits a tag outside 0–9. -/
theorem C4_tag_discipline :
    (∀ b0 b1 b2 b3 t r, 10 ≤ t →
        readKv (b0 :: b1 :: b2 :: b3 :: t :: r) = .error (.invalidDataType t)) ∧
    (∀ s t, readKv s = .error (.invalidDataType t) → 10 ≤ t) ∧
    (∀ b0 b1 b2 b3 t r out, readKv (b0 :: b1 :: b2 :: b3 :: t :: r) = .ok out →
        out.1.2.2.dataType = t) ∧
    (∀ b0 b1 b2 b3 p0 p1 p2 p3 p4 p5 p6 p7 r,
        readKv (b0 :: b1 :: b2 :: b3 :: 3 :: p0 :: p1 :: p2 :: p3 :: p4 :: p5
                 :: p6 :: p7 :: r) =
          .ok ((13, b0 + 2 ^ 8 * b1 + 2 ^ 16 * b2 + 2 ^ 24 * b3,
                .u64 (p0 + 2 ^ 8 * p1 + 2 ^ 16 * p2 + 2 ^ 24 * p3 + 2 ^ 32 * p4
                       + 2 ^ 40 * p5 + 2 ^ 48 * p6 + 2 ^ 56 * p7)), r)) ∧
    (∀ b0 b1 b2 b3 h r, h.length = 20 →
        readKv (b0 :: b1 :: b2 :: b3 :: 9 :: (h ++ r)) =
          .ok ((25, b0 + 2 ^ 8 * b1 + 2 ^ 16 * b2 + 2 ^ 24 * b3, .sha1 h), r)) ∧
    (∀ k v bytes, writeKv k v = .ok bytes →
        (∃ payload, bytes = u32le k ++ v.dataType :: payload) ∧ v.dataType ≤ 9) := by
  refine ⟨readKv_tag_big, fun s t h => readKv_invalidDataType h,
          fun b0 b1 b2 b3 t r out h => readKv_ok_dataType h, ?_, ?_, ?_⟩
  · intro b0 b1 b2 b3 p0 p1 p2 p3 p4 p5 p6 p7 r
    simp [readKv, readU32, readU8, readU64]
  · intro b0 b1 b2 b3 h r hlen
    simp only [readKv, readU32, readU8, okBind]
    rw [show (20 : Nat) = h.length from hlen.symm, readExact_append h r]
    simp [hlen]
  · exact fun k v bytes h => writeKv_shape h

/-- Witness for C4: tag 99 is rejected, tag 3 decodes an LE U64, tag 9 a
20-byte hash, and a written Bool entry carries its tag at offset 4. -/
theorem C4_tag_discipline_witness :
    readKv [1, 0, 0, 0, 99, 7] = .error (.invalidDataType 99) ∧
    (10 ≤ 77) ∧
    (Value.u8 5).dataType = 0 ∧
    readKv [2, 0, 0, 0, 3, 1, 0, 0, 0, 0, 0, 0, 0, 7] =
      .ok ((13, 2, .u64 1), [7]) ∧
    readKv (0 :: 0 :: 0 :: 0 :: 9 :: (List.replicate 20 4 ++ [8])) =
      .ok ((25, 0, .sha1 (List.replicate 20 4)), [8]) ∧
    (∃ payload, u32le 3 ++ [7, 1] = u32le 3 ++ (Value.bool true).dataType :: payload) := by
  refine ⟨?_, ?_, ?_, ?_, ?_, ?_⟩
  · exact C4_tag_discipline.1 1 0 0 0 99 [7] (by omega)
  · exact C4_tag_discipline.2.1 [3, 0, 0, 0, 77] 77 rfl
  · exact C4_tag_discipline.2.2.1 9 0 0 0 0 [5] ((6, 9, .u8 5), []) rfl
  · exact C4_tag_discipline.2.2.2.1 2 0 0 0 1 0 0 0 0 0 0 0 [7]
  · exact C4_tag_discipline.2.2.2.2.1 0 0 0 0 (List.replicate 20 4) [8] (by decide)
  · exact (C4_tag_discipline.2.2.2.2.2 3 (.bool true) (u32le 3 ++ [7, 1]) rfl).1

/-- C2: `Map::write` emits a 4-byte LE length of the entry buffer followed
by the buffer; `Map::read` decodes from exactly that many bytes, so a map
embedded in a larger stream leaves the caller's trailing data untouched,
and an entry that would read past the declared length (or a decode failure
inside the declared window) is a fatal error. -/
theorem C2_map_framing :
    (∀ m bytes, mapWrite m = .ok bytes →
        ∃ buf, mapEntriesWrite m = .ok buf ∧ buf.length ≤ 2 ^ 32 - 1 ∧
          bytes = u32le buf.length ++ buf) ∧
    (∀ m bytes extra, keysNodup m → wfEntries m → mapWrite m = .ok bytes →
        mapRead (bytes ++ extra) = .ok (m, extra)) ∧
    (∀ m0 s e remaining, remaining ≠ 0 → readKv s = .error e →
        mapReadLoop m0 s remaining = .error e) ∧
    (∀ m0 s n k v rest remaining, remaining ≠ 0 →
        readKv s = .ok ((n, k, v), rest) → remaining < n →
        mapReadLoop m0 s remaining = .error .ioEof) := by
  refine ⟨?_, ?_, ?_, ?_⟩
  · intro m bytes hw
    simp only [mapWrite] at hw
    cases hbuf : mapEntriesWrite m with
    | error err => rw [hbuf] at hw; exact absurd hw (by simp)
    | ok buf =>
      rw [hbuf] at hw
      simp only [okBind] at hw
      split at hw
      · rename_i hlen
        simp only [Except.ok.injEq] at hw
        exact ⟨buf, rfl, hlen, hw.symm⟩
      · exact absurd hw (by simp)
  · exact fun m bytes extra hnd hwf hw => mapRead_mapWrite m bytes extra hnd hwf hw
  · intro m0 s e remaining hr hkv
    rw [mapReadLoop, if_neg hr, hkv]
    rfl
  · intro m0 s n k v rest remaining hr hkv hlt
    rw [mapReadLoop, if_neg hr, hkv]
    simp only [okBind]
    rw [dif_neg (by omega)]

/-- Witness for C2: a one-entry map frames as `[6,0,0,0] ++ entry`, reads
back from a stream with trailing bytes without touching them, an EOF inside
the declared window propagates, and a declared length shorter than the
first entry is rejected. -/
theorem C2_map_framing_witness :
    (∃ buf, mapEntriesWrite [(1, Value.u8 7)] = .ok buf ∧
      buf.length ≤ 2 ^ 32 - 1 ∧
      u32le 6 ++ [1, 0, 0, 0, 0, 7] = u32le buf.length ++ buf) ∧
    mapRead ((u32le 6 ++ [1, 0, 0, 0, 0, 7]) ++ [77, 78]) =
      .ok ([(1, Value.u8 7)], [77, 78]) ∧
    mapReadLoop [] [] 3 = .error .ioEof ∧
    mapReadLoop [] [1, 0, 0, 0, 0, 7] 2 = .error .ioEof := by
  refine ⟨?_, ?_, ?_, ?_⟩
  · exact C2_map_framing.1 [(1, Value.u8 7)] (u32le 6 ++ [1, 0, 0, 0, 0, 7]) rfl
  · exact C2_map_framing.2.1 [(1, Value.u8 7)] (u32le 6 ++ [1, 0, 0, 0, 0, 7])
      [77, 78] (by decide) (by decide) rfl
  · exact C2_map_framing.2.2.1 [] [] FErr.ioEof 3 (by omega) rfl
  · exact C2_map_framing.2.2.2 [] [1, 0, 0, 0, 0, 7] 6 1 (Value.u8 7) [] 2
      (by omega) rfl (by omega)

/-- C8: for every map (including the empty one) with the `HashMap`
invariants, decode ∘ encode restores the map exactly, and the dictionary a
stream denotes is independent of insertion order: permuted entry lists with
the same bindings are the same key→value function, so the decoded result
depends only on the map's content. -/
theorem C8_map_roundtrip :
    (∀ m bytes extra, keysNodup m → wfEntries m → mapWrite m = .ok bytes →
        ∃ m2, mapRead (bytes ++ extra) = .ok (m2, extra) ∧ m2 = m ∧
          (∀ k, lookupKV m2 k = lookupKV m k)) ∧
    (∀ m1 m2 : EMap, keysNodup m1 → m1.Perm m2 →
        ∀ k, lookupKV m1 k = lookupKV m2 k) := by
  refine ⟨?_, fun m1 m2 hnd hp k => lookupKV_perm hp hnd k⟩
  intro m bytes extra hnd hwf hw
  exact ⟨m, mapRead_mapWrite m bytes extra hnd hwf hw, rfl, fun _ => rfl⟩

/-- Witness for C8: a two-entry map and the empty map round-trip; the two
insertion orders of the same bindings agree as dictionaries. -/
theorem C8_map_roundtrip_witness :
    (∃ m2, mapRead ((u32le 12 ++ [1, 0, 0, 0, 0, 7, 2, 0, 0, 0, 7, 1]) ++ [9]) =
        .ok (m2, [9]) ∧ m2 = [(1, Value.u8 7), (2, Value.bool true)] ∧
        (∀ k, lookupKV m2 k = lookupKV [(1, Value.u8 7), (2, Value.bool true)] k)) ∧
    (∃ m2, mapRead ((u32le 0 ++ []) ++ [5]) = .ok (m2, [5]) ∧ m2 = [] ∧
        (∀ k, lookupKV m2 k = lookupKV [] k)) ∧
    (∀ k, lookupKV [(1, Value.u8 7), (2, Value.bool true)] k =
        lookupKV [(2, Value.bool true), (1, Value.u8 7)] k) := by
  refine ⟨?_, ?_, ?_⟩
  · exact C8_map_roundtrip.1 [(1, Value.u8 7), (2, Value.bool true)] _ [9]
      (by decide) (by decide) rfl
  · exact C8_map_roundtrip.1 [] _ [5] (by decide) (by decide) rfl
  · exact C8_map_roundtrip.2 [(1, Value.u8 7), (2, Value.bool true)]
      [(2, Value.bool true), (1, Value.u8 7)] (by decide) (List.Perm.swap _ _ _)

/-- C9: a stream holding two well-formed entries with the same key decodes
successfully into the singleton map binding the key to the *later* value in
stream order, so the decoded size is the number of distinct keys, not of
entries. -/
theorem C9_duplicate_key_last_wins (k : Nat) (v1 v2 : Value)
    (b1 b2 extra : List Nat)
    (hk : k < 2 ^ 32) (hv1 : v1.wfV = true) (hv2 : v2.wfV = true)
    (hw1 : writeKv k v1 = .ok b1) (hw2 : writeKv k v2 = .ok b2)
    (hlen : b1.length + b2.length < 2 ^ 32) :
    mapRead ((u32le (b1.length + b2.length) ++ (b1 ++ b2)) ++ extra) =
      .ok ([(k, v2)], extra) ∧
    lookupKV [(k, v2)] k = some v2 ∧ ([(k, v2)] : EMap).length = 1 := by
  have hwf : wfEntries [(k, v1), (k, v2)] := by
    intro e he
    simp only [List.mem_cons, List.not_mem_nil, or_false] at he
    rcases he with rfl | rfl
    · exact ⟨hk, hv1⟩
    · exact ⟨hk, hv2⟩
  have hbuf : mapEntriesWrite [(k, v1), (k, v2)] = .ok (b1 ++ (b2 ++ [])) := by
    simp [mapEntriesWrite, hw1, hw2]
  refine ⟨?_, by simp [lookupKV_cons], rfl⟩
  simp only [mapRead, List.append_assoc]
  rw [readU32_u32le _ hlen]
  simp only [okBind]
  have := mapReadLoop_entries [(k, v1), (k, v2)] [] (b1 ++ (b2 ++ [])) extra hwf hbuf
  simp only [List.append_nil] at this hbuf
  rw [show b1.length + b2.length = (b1 ++ b2).length by simp] at *
  rw [List.append_assoc] at this
  rw [this]
  simp [insertKV, removeKV]

/-- Witness for C9: entries `1 ↦ U8 7` then `1 ↦ Bool true` decode to the
singleton `1 ↦ Bool true`. -/
theorem C9_duplicate_key_last_wins_witness :
    mapRead ((u32le 12 ++ ([1, 0, 0, 0, 0, 7] ++ [1, 0, 0, 0, 7, 1])) ++ [3]) =
      .ok ([(1, Value.bool true)], [3]) ∧
    lookupKV [(1, Value.bool true)] 1 = some (Value.bool true) ∧
    ([(1, Value.bool true)] : EMap).length = 1 :=
  C9_duplicate_key_last_wins 1 (Value.u8 7) (Value.bool true)
    [1, 0, 0, 0, 0, 7] [1, 0, 0, 0, 7, 1] [3]
    (by decide) (by decide) (by decide) rfl rfl (by decide)

/-! ### Beatmap-level claims -/

theorem fromU8_unknown {r : Nat} (hr : 4 ≤ r) :
    BeatmapType.fromU8 r = .unknown := by
  rcases r with _|_|_|_|r
  any_goals omega
  rfl

/-- Reduction of `Beatmap::read` once the `Map` layer is known: the record
is whatever field extraction makes of the decoded map, and the stream
position is wherever the map frame ended. -/
theorem Beatmap.read_reduce (s : List Nat) (strict : Bool) (m : EMap)
    (rest : List Nat) (h : mapRead s = .ok (m, rest)) :
    Beatmap.read s strict =
      (Beatmap.fromData m strict) >>= fun b => .ok (b, rest) := by
  unfold Beatmap.read
  rw [h]
  rfl

/-- C10: a `date_added` before the Unix epoch makes `Beatmap::write` fail
with the crate-level `IntegerOverflow` (the `i64 → u64` conversion of
`date_added.timestamp().try_into()` fails); the failure happens while the
map is still being assembled, before anything reaches the output writer —
in this pure model the error result carries no bytes. -/
theorem C10_negative_timestamp (b : Beatmap) (h : b.dateAdded < 0) :
    Beatmap.write b = .error Err.integerOverflow := by
  simp only [Beatmap.write]
  rw [if_pos h]
  rfl

/-- Witness for C10 at timestamp −5. -/
theorem C10_negative_timestamp_witness :
    Beatmap.write
      { ty := .key, dateAdded := -5, key := some 1, hash := none,
        zip := none, levelId := none, customData := [] } =
      .error Err.integerOverflow :=
  C10_negative_timestamp _ (by decide)

/-- C5: an encoded beatmap map whose field 0 is a U8 outside {0,1,2,3} is
rejected by `Beatmap::read` in strict mode with
`StrictModeUnknownBeatmapType` carrying the raw value (whatever the other
fields hold), and decodes to discriminant `Unknown` in lenient mode when
the remaining fields are decodable. -/
theorem C5_strict_vs_lenient (m : EMap) (bytes extra : List Nat) (r : Nat)
    (hnd : keysNodup m) (hwf : wfEntries m) (hw : mapWrite m = .ok bytes)
    (h0 : lookupKV m 0 = some (.u8 r)) (hr : 4 ≤ r) :
    Beatmap.read (bytes ++ extra) true =
      .error (.strictModeUnknownBeatmapType r) ∧
    (∀ (d : Nat) (o2 : Option Nat) (o3 o4 o5 : Option (List Nat)),
      lookupKV (removeKV m 0) 1 = some (.u64 d) → d < 2 ^ 63 →
      lookupKV (removeKV (removeKV m 0) 1) 2 = o2.map Value.u32 →
      lookupKV (removeKV (removeKV (removeKV m 0) 1) 2) 3 = o3.map Value.sha1 →
      lookupKV (removeKV (removeKV (removeKV (removeKV m 0) 1) 2) 3) 4 =
        o4.map Value.binary →
      lookupKV (removeKV (removeKV (removeKV (removeKV (removeKV m 0) 1) 2) 3) 4) 5 =
        o5.map Value.shortString →
      Beatmap.read (bytes ++ extra) false =
        .ok ({ ty := .unknown, dateAdded := Int.ofNat d, key := o2,
               hash := o3, zip := o4, levelId := o5,
               customData :=
                 removeKV (removeKV (removeKV (removeKV (removeKV
                   (removeKV m 0) 1) 2) 3) 4) 5 }, extra)) := by
  have hread : mapRead (bytes ++ extra) = .ok (m, extra) :=
    mapRead_mapWrite m bytes extra hnd hwf hw
  have hru := fromU8_unknown hr
  constructor
  · rw [Beatmap.read_reduce _ true m extra hread]
    simp only [Beatmap.fromData, h0, hru]
    simp
  · intro d o2 o3 o4 o5 h1 hd h2 h3 h4 h5
    rw [Beatmap.read_reduce _ false m extra hread]
    rcases o2 with _ | u2 <;> rcases o3 with _ | v3 <;>
      rcases o4 with _ | v4 <;> rcases o5 with _ | v5 <;>
      simp only [Option.map] at h2 h3 h4 h5 <;>
      simp only [Beatmap.fromData, h0, hru, h1, h2, h3, h4, h5,
        Bool.false_eq_true, false_and, reduceCtorEq, and_false, if_false] <;>
      (split <;> first | rfl | omega)

/-- Witness for C5: field 0 = U8 99 plus a valid timestamp — strict mode
fails with `StrictModeUnknownBeatmapType 99`, lenient mode yields
discriminant `Unknown`. -/
theorem C5_strict_vs_lenient_witness :
    (Beatmap.read
        ((u32le 19 ++ ([0, 0, 0, 0, 0, 99] ++
          [1, 0, 0, 0, 3, 5, 0, 0, 0, 0, 0, 0, 0])) ++ []) true =
      .error (.strictModeUnknownBeatmapType 99)) ∧
    (Beatmap.read
        ((u32le 19 ++ ([0, 0, 0, 0, 0, 99] ++
          [1, 0, 0, 0, 3, 5, 0, 0, 0, 0, 0, 0, 0])) ++ []) false =
      .ok ({ ty := .unknown, dateAdded := Int.ofNat 5, key := none,
             hash := none, zip := none, levelId := none,
             customData := [] }, [])) := by
  have h := C5_strict_vs_lenient [(0, Value.u8 99), (1, Value.u64 5)]
    (u32le 19 ++ ([0, 0, 0, 0, 0, 99] ++ [1, 0, 0, 0, 3, 5, 0, 0, 0, 0, 0, 0, 0]))
    [] 99 (by decide) (by decide) rfl rfl (by omega)
  exact ⟨h.1, h.2 5 none none none none rfl (by omega) rfl rfl rfl rfl⟩

/-- C6: an encoded beatmap map with field 0 = U8 0 (discriminant `Key`) and
a valid U64 timestamp fails with `MissingBeatmapKey` when field 2 is
absent, and succeeds when field 2 is a U32 — regardless of whether the
optional fields 3, 4, 5 of other discriminants are present with their
correct value kinds, which are retained in the decoded record. -/
theorem C6_key_required (m : EMap) (bytes extra : List Nat) (d : Nat)
    (strict : Bool) (o3 o4 o5 : Option (List Nat))
    (hnd : keysNodup m) (hwf : wfEntries m) (hw : mapWrite m = .ok bytes)
    (h0 : lookupKV m 0 = some (.u8 0))
    (h1 : lookupKV (removeKV m 0) 1 = some (.u64 d)) (hd : d < 2 ^ 63)
    (h3 : lookupKV (removeKV (removeKV (removeKV m 0) 1) 2) 3 = o3.map Value.sha1)
    (h4 : lookupKV (removeKV (removeKV (removeKV (removeKV m 0) 1) 2) 3) 4 =
            o4.map Value.binary)
    (h5 : lookupKV (removeKV (removeKV (removeKV (removeKV (removeKV m 0) 1) 2) 3) 4) 5 =
            o5.map Value.shortString) :
    (lookupKV (removeKV (removeKV m 0) 1) 2 = none →
       Beatmap.read (bytes ++ extra) strict = .error .missingBeatmapKey) ∧
    (∀ u, lookupKV (removeKV (removeKV m 0) 1) 2 = some (.u32 u) →
       Beatmap.read (bytes ++ extra) strict =
         .ok ({ ty := .key, dateAdded := Int.ofNat d, key := some u,
                hash := o3, zip := o4, levelId := o5,
                customData :=
                  removeKV (removeKV (removeKV (removeKV (removeKV
                    (removeKV m 0) 1) 2) 3) 4) 5 }, extra)) := by
  have hread : mapRead (bytes ++ extra) = .ok (m, extra) :=
    mapRead_mapWrite m bytes extra hnd hwf hw
  constructor
  · intro h2
    rw [Beatmap.read_reduce _ strict m extra hread]
    rcases o3 with _ | v3 <;> rcases o4 with _ | v4 <;> rcases o5 with _ | v5 <;>
      simp only [Option.map] at h3 h4 h5 <;>
      simp only [Beatmap.fromData, h0, h1, h2, h3, h4, h5,
        BeatmapType.fromU8, Bool.false_eq_true, false_and, reduceCtorEq,
        and_false, if_false] <;>
      (split <;> first | rfl | omega)
  · intro u h2
    rw [Beatmap.read_reduce _ strict m extra hread]
    rcases o3 with _ | v3 <;> rcases o4 with _ | v4 <;> rcases o5 with _ | v5 <;>
      simp only [Option.map] at h3 h4 h5 <;>
      simp only [Beatmap.fromData, h0, h1, h2, h3, h4, h5,
        BeatmapType.fromU8, Bool.false_eq_true, false_and, reduceCtorEq,
        and_false, if_false] <;>
      (split <;> first | rfl | omega)

/-- Witness for C6: discriminant `Key` with a timestamp and no field 2
fails with `MissingBeatmapKey`; adding field 2 = U32 7 and a field 5
ShortString of another discriminant succeeds and retains it. -/
theorem C6_key_required_witness :
    (Beatmap.read
        ((u32le 19 ++ ([0, 0, 0, 0, 0, 0] ++
          [1, 0, 0, 0, 3, 5, 0, 0, 0, 0, 0, 0, 0])) ++ [8]) false =
      .error .missingBeatmapKey) ∧
    (Beatmap.read
        ((u32le 36 ++ ([0, 0, 0, 0, 0, 0] ++
          ([1, 0, 0, 0, 3, 5, 0, 0, 0, 0, 0, 0, 0] ++
          ([2, 0, 0, 0, 2, 7, 0, 0, 0] ++
          [5, 0, 0, 0, 4, 2, 97, 98])))) ++ [8]) false =
      .ok ({ ty := .key, dateAdded := Int.ofNat 5, key := some 7,
             hash := none, zip := none, levelId := some [97, 98],
             customData := [] }, [8])) := by
  constructor
  · exact (C6_key_required [(0, Value.u8 0), (1, Value.u64 5)]
      (u32le 19 ++ ([0, 0, 0, 0, 0, 0] ++ [1, 0, 0, 0, 3, 5, 0, 0, 0, 0, 0, 0, 0]))
      [8] 5 false none none none (by decide) (by decide) rfl rfl rfl (by omega)
      rfl rfl rfl).1 rfl
  · exact (C6_key_required
      [(0, Value.u8 0), (1, Value.u64 5), (2, Value.u32 7),
       (5, Value.shortString [97, 98])]
      (u32le 36 ++ ([0, 0, 0, 0, 0, 0] ++
        ([1, 0, 0, 0, 3, 5, 0, 0, 0, 0, 0, 0, 0] ++
        ([2, 0, 0, 0, 2, 7, 0, 0, 0] ++ [5, 0, 0, 0, 4, 2, 97, 98]))))
      [8] 5 false none none (some [97, 98]) (by decide) (by decide) rfl rfl
      rfl (by omega) rfl rfl rfl).2 7 rfl

/-! ### Record round trips -/

theorem fromU8_toU8 (ty : BeatmapType) :
    BeatmapType.fromU8 ty.toU8 = ty := by
  cases ty <;> rfl

/-- Full evaluation of the lenient field extraction, given the value each
reserved lookup produces: the record collects the discriminant, timestamp
and optional payloads, and keeps whatever remains after the six removals
as custom data. -/
theorem fromData_eval (m : EMap) (t d : Nat) (ty : BeatmapType)
    (o2 : Option Nat) (o3 o4 o5 : Option (List Nat))
    (h0 : lookupKV m 0 = some (.u8 t))
    (hty : BeatmapType.fromU8 t = ty)
    (h1 : lookupKV (removeKV m 0) 1 = some (.u64 d))
    (hd : d < 2 ^ 63)
    (h2 : lookupKV (removeKV (removeKV m 0) 1) 2 = o2.map Value.u32)
    (h3 : lookupKV (removeKV (removeKV (removeKV m 0) 1) 2) 3 = o3.map Value.sha1)
    (h4 : lookupKV (removeKV (removeKV (removeKV (removeKV m 0) 1) 2) 3) 4 =
            o4.map Value.binary)
    (h5 : lookupKV (removeKV (removeKV (removeKV (removeKV (removeKV m 0) 1) 2) 3) 4) 5 =
            o5.map Value.shortString)
    (hreq : (match ty with
             | .key => o2.isSome
             | .hash => o3.isSome
             | .zip => o4.isSome
             | .levelId => o5.isSome
             | .unknown => true) = true) :
    Beatmap.fromData m false =
      .ok { ty := ty, dateAdded := Int.ofNat d, key := o2, hash := o3,
            zip := o4, levelId := o5,
            customData :=
              removeKV (removeKV (removeKV (removeKV (removeKV
                (removeKV m 0) 1) 2) 3) 4) 5 } := by
  cases ty <;>
    rcases o2 with _ | u2 <;> rcases o3 with _ | v3 <;>
    rcases o4 with _ | v4 <;> rcases o5 with _ | v5 <;>
    simp only [Option.map, Option.isSome] at h2 h3 h4 h5 hreq <;>
    first
    | (exfalso; simp at hreq)
    | (simp only [Beatmap.fromData, h0, hty, h1, h2, h3, h4, h5,
        Bool.false_eq_true, false_and, reduceCtorEq, and_false, if_false] <;>
       split <;> first | rfl | omega)

/-- `Beatmap::write` then `Beatmap::read` (lenient) restores the record
exactly — in particular every custom-data entry — and consumes exactly the
record's own bytes. -/
theorem beatmap_write_read (b : Beatmap) (bytes extra : List Nat)
    (hwf : b.wfB = true) (hw : Beatmap.write b = .ok bytes) :
    Beatmap.read (bytes ++ extra) false = .ok (b, extra) := by
  obtain ⟨ty, date, key, hash, zip, levelId, custom⟩ := b
  simp only [Beatmap.wfB, Bool.and_eq_true, decide_eq_true_eq] at hwf
  obtain ⟨⟨⟨⟨⟨⟨⟨⟨⟨hwfE, hnd⟩, hk6⟩, h0le⟩, hlt⟩, hkw⟩, hhw⟩, hzw⟩, hlw⟩, hreq⟩ := hwf
  have hk6m : ∀ e ∈ custom, 6 ≤ e.1 := by
    intro e he
    simpa using List.all_eq_true.mp hk6 e he
  have hnotmem : ∀ k : Nat, k < 6 → k ∉ custom.map Prod.fst := by
    intro k hk hmem
    obtain ⟨e, he, rfl⟩ := List.mem_map.mp hmem
    exact absurd (hk6m e he) (by omega)
  have rc : ∀ k : Nat, k < 6 → removeKV custom k = custom :=
    fun k hk => removeKV_eq_self (hnotmem k hk)
  have lc : ∀ k : Nat, k < 6 → lookupKV custom k = none :=
    fun k hk => lookupKV_eq_none (hnotmem k hk)
  simp only [Beatmap.write] at hw
  rw [if_neg (by omega)] at hw
  simp only [okBind] at hw
  rw [liftF_ok] at hw
  have hkw2 : ∀ u ∈ key, (Value.u32 u).wfV = true := by
    intro u hu
    cases key with
    | none => cases hu
    | some x =>
      cases hu
      simpa [Value.wfV] using hkw
  have hhw2 : ∀ x ∈ hash, (Value.sha1 x).wfV = true := by
    intro x hx
    cases hash with
    | none => cases hx
    | some y => cases hx; exact hhw
  have hzw2 : ∀ x ∈ zip, (Value.binary x).wfV = true := by
    intro x hx
    cases zip with
    | none => cases hx
    | some y => cases hx; exact hzw
  have hlw2 : ∀ x ∈ levelId, (Value.shortString x).wfV = true := by
    intro x hx
    cases levelId with
    | none => cases hx
    | some y => cases hx; exact hlw
  have hndD : keysNodup (insertOpt (insertOpt (insertOpt (insertOpt
      (insertKV (insertKV custom 0 (.u8 (BeatmapType.toU8 ty))) 1
        (.u64 date.toNat)) 2 Value.u32 key) 3 Value.sha1 hash)
      4 Value.binary zip) 5 Value.shortString levelId) :=
    keysNodup_insertOpt _ _ _ _ (keysNodup_insertOpt _ _ _ _
      (keysNodup_insertOpt _ _ _ _ (keysNodup_insertOpt _ _ _ _
        (keysNodup_insertKV _ _ _ (keysNodup_insertKV _ _ _ hnd)))))
  have hwfD : wfEntries (insertOpt (insertOpt (insertOpt (insertOpt
      (insertKV (insertKV custom 0 (.u8 (BeatmapType.toU8 ty))) 1
        (.u64 date.toNat)) 2 Value.u32 key) 3 Value.sha1 hash)
      4 Value.binary zip) 5 Value.shortString levelId) :=
    wfEntries_insertOpt _ _ _ _
      (wfEntries_insertOpt _ _ _ _
        (wfEntries_insertOpt _ _ _ _
          (wfEntries_insertOpt _ _ _ _
            (wfEntries_insertKV _ _ _
              (wfEntries_insertKV _ _ _ hwfE (by omega)
                (by cases ty <;> rfl))
              (by omega) (by simp [Value.wfV]; omega))
            (by omega) hkw2)
          (by omega) hhw2)
        (by omega) hzw2)
      (by omega) hlw2
  have hread := mapRead_mapWrite _ bytes extra hndD hwfD hw
  rw [Beatmap.read_reduce _ false _ extra hread]
  have h0 : lookupKV (insertOpt (insertOpt (insertOpt (insertOpt
      (insertKV (insertKV custom 0 (.u8 (BeatmapType.toU8 ty))) 1
        (.u64 date.toNat)) 2 Value.u32 key) 3 Value.sha1 hash)
      4 Value.binary zip) 5 Value.shortString levelId) 0 =
      some (.u8 (BeatmapType.toU8 ty)) := by
    rw [lookupKV_insertOpt_ne _ _ _ (by omega), lookupKV_insertOpt_ne _ _ _ (by omega),
        lookupKV_insertOpt_ne _ _ _ (by omega), lookupKV_insertOpt_ne _ _ _ (by omega),
        lookupKV_insert_ne _ _ (by omega), lookupKV_insert_self]
  have r0 : removeKV (insertOpt (insertOpt (insertOpt (insertOpt
      (insertKV (insertKV custom 0 (.u8 (BeatmapType.toU8 ty))) 1
        (.u64 date.toNat)) 2 Value.u32 key) 3 Value.sha1 hash)
      4 Value.binary zip) 5 Value.shortString levelId) 0 =
      insertOpt (insertOpt (insertOpt (insertOpt
      (insertKV custom 1 (.u64 date.toNat)) 2 Value.u32 key) 3 Value.sha1 hash)
      4 Value.binary zip) 5 Value.shortString levelId := by
    rw [removeKV_insertOpt_ne _ _ _ (by omega), removeKV_insertOpt_ne _ _ _ (by omega),
        removeKV_insertOpt_ne _ _ _ (by omega), removeKV_insertOpt_ne _ _ _ (by omega),
        removeKV_insert_ne _ _ (by omega), removeKV_insert_self, rc 0 (by omega)]
  have h1 : lookupKV (insertOpt (insertOpt (insertOpt (insertOpt
      (insertKV custom 1 (.u64 date.toNat)) 2 Value.u32 key) 3 Value.sha1 hash)
      4 Value.binary zip) 5 Value.shortString levelId) 1 =
      some (.u64 date.toNat) := by
    rw [lookupKV_insertOpt_ne _ _ _ (by omega), lookupKV_insertOpt_ne _ _ _ (by omega),
        lookupKV_insertOpt_ne _ _ _ (by omega), lookupKV_insertOpt_ne _ _ _ (by omega),
        lookupKV_insert_self]
  have r1 : removeKV (insertOpt (insertOpt (insertOpt (insertOpt
      (insertKV custom 1 (.u64 date.toNat)) 2 Value.u32 key) 3 Value.sha1 hash)
      4 Value.binary zip) 5 Value.shortString levelId) 1 =
      insertOpt (insertOpt (insertOpt (insertOpt
      custom 2 Value.u32 key) 3 Value.sha1 hash)
      4 Value.binary zip) 5 Value.shortString levelId := by
    rw [removeKV_insertOpt_ne _ _ _ (by omega), removeKV_insertOpt_ne _ _ _ (by omega),
        removeKV_insertOpt_ne _ _ _ (by omega), removeKV_insertOpt_ne _ _ _ (by omega),
        removeKV_insert_self, rc 1 (by omega)]
  have h2 : lookupKV (insertOpt (insertOpt (insertOpt (insertOpt
      custom 2 Value.u32 key) 3 Value.sha1 hash)
      4 Value.binary zip) 5 Value.shortString levelId) 2 = key.map Value.u32 := by
    rw [lookupKV_insertOpt_ne _ _ _ (by omega), lookupKV_insertOpt_ne _ _ _ (by omega),
        lookupKV_insertOpt_ne _ _ _ (by omega),
        lookupKV_insertOpt_self _ _ _ _ (lc 2 (by omega))]
  have r2 : removeKV (insertOpt (insertOpt (insertOpt (insertOpt
      custom 2 Value.u32 key) 3 Value.sha1 hash)
      4 Value.binary zip) 5 Value.shortString levelId) 2 =
      insertOpt (insertOpt (insertOpt
      custom 3 Value.sha1 hash) 4 Value.binary zip) 5 Value.shortString levelId := by
    rw [removeKV_insertOpt_ne _ _ _ (by omega), removeKV_insertOpt_ne _ _ _ (by omega),
        removeKV_insertOpt_ne _ _ _ (by omega),
        removeKV_insertOpt_self _ _ _ _ (rc 2 (by omega))]
  have h3 : lookupKV (insertOpt (insertOpt (insertOpt
      custom 3 Value.sha1 hash) 4 Value.binary zip) 5 Value.shortString levelId) 3 =
      hash.map Value.sha1 := by
    rw [lookupKV_insertOpt_ne _ _ _ (by omega), lookupKV_insertOpt_ne _ _ _ (by omega),
        lookupKV_insertOpt_self _ _ _ _ (lc 3 (by omega))]
  have r3 : removeKV (insertOpt (insertOpt (insertOpt
      custom 3 Value.sha1 hash) 4 Value.binary zip) 5 Value.shortString levelId) 3 =
      insertOpt (insertOpt custom 4 Value.binary zip) 5 Value.shortString levelId := by
    rw [removeKV_insertOpt_ne _ _ _ (by omega), removeKV_insertOpt_ne _ _ _ (by omega),
        removeKV_insertOpt_self _ _ _ _ (rc 3 (by omega))]
  have h4 : lookupKV (insertOpt (insertOpt custom 4 Value.binary zip)
      5 Value.shortString levelId) 4 = zip.map Value.binary := by
    rw [lookupKV_insertOpt_ne _ _ _ (by omega),
        lookupKV_insertOpt_self _ _ _ _ (lc 4 (by omega))]
  have r4 : removeKV (insertOpt (insertOpt custom 4 Value.binary zip)
      5 Value.shortString levelId) 4 = insertOpt custom 5 Value.shortString levelId := by
    rw [removeKV_insertOpt_ne _ _ _ (by omega),
        removeKV_insertOpt_self _ _ _ _ (rc 4 (by omega))]
  have h5 : lookupKV (insertOpt custom 5 Value.shortString levelId) 5 =
      levelId.map Value.shortString :=
    lookupKV_insertOpt_self _ _ _ _ (lc 5 (by omega))
  have r5 : removeKV (insertOpt custom 5 Value.shortString levelId) 5 = custom :=
    removeKV_insertOpt_self _ _ _ _ (rc 5 (by omega))
  rw [fromData_eval _ (BeatmapType.toU8 ty) date.toNat ty key hash zip levelId
        h0 (fromU8_toU8 ty)
        (by rw [r0]; exact h1) (by omega)
        (by rw [r0, r1]; exact h2)
        (by rw [r0, r1, r2]; exact h3)
        (by rw [r0, r1, r2, r3]; exact h4)
        (by rw [r0, r1, r2, r3, r4]; exact h5)
        hreq]
  simp only [okBind, r0, r1, r2, r3, r4, r5]
  rw [show Int.ofNat date.toNat = date by
    rw [Int.ofNat_eq_natCast]; exact Int.toNat_of_nonneg h0le]

/-- The beatmap loop of `Playlist::read` restores the written list in
order, consuming exactly its own bytes. -/
theorem readMaps_writeMaps (maps : List Beatmap) :
    ∀ (bs extra : List Nat), (∀ b ∈ maps, b.wfB = true) →
    writeMaps maps = .ok bs →
    readMaps false maps.length (bs ++ extra) = .ok (maps, extra) := by
  induction maps with
  | nil =>
    intro bs extra _ hw
    simp only [writeMaps, Except.ok.injEq] at hw
    subst hw
    rfl
  | cons b rest ih =>
    intro bs extra hwf hw
    simp only [writeMaps] at hw
    cases hb : Beatmap.write b with
    | error e => rw [hb] at hw; exact absurd hw (by simp)
    | ok x =>
      rw [hb] at hw
      cases hbs : writeMaps rest with
      | error e => rw [hbs] at hw; exact absurd hw (by simp)
      | ok xs =>
        rw [hbs] at hw
        simp only [okBind, Except.ok.injEq] at hw
        subst hw
        simp only [List.length_cons, readMaps, List.append_assoc]
        rw [beatmap_write_read b x (xs ++ extra) (hwf b (by simp)) hb]
        simp only [okBind]
        rw [ih xs extra (fun b hbm => hwf b (by simp [hbm])) hbs]
        rfl

/-- C7: any stream whose first 8 bytes differ from the ASCII signature
`"Blist.v3"` makes `Playlist::read` fail with `InvalidMagicNumber` carrying
the 8 bytes read.  The codec is universally quantified and never applied:
the failure precedes any decompression. -/
theorem C7_magic_number (c : Codec) (s : List Nat) (strict : Bool)
    (hlen : 8 ≤ s.length) (hmagic : s.take 8 ≠ MAGIC_NUMBER) :
    Playlist.read c s strict = .error (.invalidMagicNumber (s.take 8)) := by
  simp only [Playlist.read]
  rw [if_neg (by omega)]
  rw [if_pos hmagic]

/-- Witness for C7: an all-zero signature is rejected for every codec —
instantiated at the identity codec. -/
theorem C7_magic_number_witness :
    Playlist.read ⟨fun x => x, fun x => x⟩ [0, 0, 0, 0, 0, 0, 0, 0, 1, 2]
      false = .error (.invalidMagicNumber [0, 0, 0, 0, 0, 0, 0, 0]) :=
  C7_magic_number ⟨fun x => x, fun x => x⟩ [0, 0, 0, 0, 0, 0, 0, 0, 1, 2]
    false (by decide) (by decide)

/-- `Playlist::write` then `Playlist::read` (lenient) restores the document
exactly — title, author, optional fields, every beatmap in order, and every
custom-data entry — for any codec satisfying the lossless contract. -/
theorem playlist_write_read (c : Codec) (p : Playlist) (bytes : List Nat)
    (hc : ∀ x, c.decompress (c.compress x) = x)
    (hwf : p.wfP = true) (hw : Playlist.write c p = .ok bytes) :
    Playlist.read c bytes false = .ok p := by
  obtain ⟨title, author, desc, cover, maps, custom⟩ := p
  simp only [Playlist.wfP, Bool.and_eq_true, decide_eq_true_eq] at hwf
  obtain ⟨⟨⟨⟨⟨⟨⟨hwfE, hnd⟩, hk4⟩, htw⟩, haw⟩, hdw⟩, hcw⟩, hmw⟩ := hwf
  have hk4m : ∀ e ∈ custom, 4 ≤ e.1 := by
    intro e he
    simpa using List.all_eq_true.mp hk4 e he
  have hnotmem : ∀ k : Nat, k < 4 → k ∉ custom.map Prod.fst := by
    intro k hk hmem
    obtain ⟨e, he, rfl⟩ := List.mem_map.mp hmem
    exact absurd (hk4m e he) (by omega)
  have rc : ∀ k : Nat, k < 4 → removeKV custom k = custom :=
    fun k hk => removeKV_eq_self (hnotmem k hk)
  have lc : ∀ k : Nat, k < 4 → lookupKV custom k = none :=
    fun k hk => lookupKV_eq_none (hnotmem k hk)
  have hdw2 : ∀ x ∈ desc, (Value.longString x).wfV = true := by
    intro x hx
    cases desc with
    | none => cases hx
    | some y => cases hx; exact hdw
  have hcw2 : ∀ x ∈ cover, (Value.binary x).wfV = true := by
    intro x hx
    cases cover with
    | none => cases hx
    | some y => cases hx; exact hcw
  have hmw2 : ∀ b ∈ maps, b.wfB = true := List.all_eq_true.mp hmw
  simp only [Playlist.write] at hw
  cases hbody : mapWrite (insertOpt (insertOpt
      (insertKV (insertKV custom 0 (.shortString title)) 1 (.shortString author))
      2 Value.longString desc) 3 Value.binary cover) with
  | error e => rw [hbody] at hw; exact absurd hw (by simp [liftF])
  | ok body =>
    rw [hbody] at hw
    simp only [liftF, okBind] at hw
    split at hw
    case isFalse => exact absurd hw (by simp)
    case isTrue hcnt =>
    try simp only [okBind] at hw
    cases hmb : writeMaps maps with
    | error e => rw [hmb] at hw; exact absurd hw (by simp)
    | ok mapsB =>
      rw [hmb] at hw
      simp only [okBind, Except.ok.injEq] at hw
      subst hw
      have hndD : keysNodup (insertOpt (insertOpt
          (insertKV (insertKV custom 0 (.shortString title)) 1 (.shortString author))
          2 Value.longString desc) 3 Value.binary cover) :=
        keysNodup_insertOpt _ _ _ _ (keysNodup_insertOpt _ _ _ _
          (keysNodup_insertKV _ _ _ (keysNodup_insertKV _ _ _ hnd)))
      have hwfD : wfEntries (insertOpt (insertOpt
          (insertKV (insertKV custom 0 (.shortString title)) 1 (.shortString author))
          2 Value.longString desc) 3 Value.binary cover) :=
        wfEntries_insertOpt _ _ _ _
          (wfEntries_insertOpt _ _ _ _
            (wfEntries_insertKV _ _ _
              (wfEntries_insertKV _ _ _ hwfE (by omega) htw)
              (by omega) haw)
            (by omega) hdw2)
          (by omega) hcw2
      have hread := mapRead_mapWrite _ body (u32le maps.length ++ mapsB)
        hndD hwfD hbody
      have hrm : readMaps false maps.length mapsB = .ok (maps, []) := by
        simpa using readMaps_writeMaps maps mapsB [] hmw2 hmb
      have h0p : lookupKV (insertOpt (insertOpt
          (insertKV (insertKV custom 0 (.shortString title)) 1 (.shortString author))
          2 Value.longString desc) 3 Value.binary cover) 0 =
          some (.shortString title) := by
        rw [lookupKV_insertOpt_ne _ _ _ (by omega), lookupKV_insertOpt_ne _ _ _ (by omega),
            lookupKV_insert_ne _ _ (by omega), lookupKV_insert_self]
      have r0p : removeKV (insertOpt (insertOpt
          (insertKV (insertKV custom 0 (.shortString title)) 1 (.shortString author))
          2 Value.longString desc) 3 Value.binary cover) 0 =
          insertOpt (insertOpt (insertKV custom 1 (.shortString author))
            2 Value.longString desc) 3 Value.binary cover := by
        rw [removeKV_insertOpt_ne _ _ _ (by omega), removeKV_insertOpt_ne _ _ _ (by omega),
            removeKV_insert_ne _ _ (by omega), removeKV_insert_self, rc 0 (by omega)]
      have h1p : lookupKV (insertOpt (insertOpt (insertKV custom 1 (.shortString author))
          2 Value.longString desc) 3 Value.binary cover) 1 =
          some (.shortString author) := by
        rw [lookupKV_insertOpt_ne _ _ _ (by omega), lookupKV_insertOpt_ne _ _ _ (by omega),
            lookupKV_insert_self]
      have r1p : removeKV (insertOpt (insertOpt (insertKV custom 1 (.shortString author))
          2 Value.longString desc) 3 Value.binary cover) 1 =
          insertOpt (insertOpt custom 2 Value.longString desc) 3 Value.binary cover := by
        rw [removeKV_insertOpt_ne _ _ _ (by omega), removeKV_insertOpt_ne _ _ _ (by omega),
            removeKV_insert_self, rc 1 (by omega)]
      have h2p : lookupKV (insertOpt (insertOpt custom 2 Value.longString desc)
          3 Value.binary cover) 2 = desc.map Value.longString := by
        rw [lookupKV_insertOpt_ne _ _ _ (by omega),
            lookupKV_insertOpt_self _ _ _ _ (lc 2 (by omega))]
      have r2p : removeKV (insertOpt (insertOpt custom 2 Value.longString desc)
          3 Value.binary cover) 2 = insertOpt custom 3 Value.binary cover := by
        rw [removeKV_insertOpt_ne _ _ _ (by omega),
            removeKV_insertOpt_self _ _ _ _ (rc 2 (by omega))]
      have h3p : lookupKV (insertOpt custom 3 Value.binary cover) 3 =
          cover.map Value.binary :=
        lookupKV_insertOpt_self _ _ _ _ (lc 3 (by omega))
      have r3p : removeKV (insertOpt custom 3 Value.binary cover) 3 = custom :=
        removeKV_insertOpt_self _ _ _ _ (rc 3 (by omega))
      simp only [Playlist.read]
      rw [if_neg (by
        simp only [List.length_append, MAGIC_NUMBER, List.length_cons, List.length_nil]
        omega)]
      rw [show (MAGIC_NUMBER ++
            c.compress (body ++ u32le maps.length ++ mapsB)).take 8 =
          MAGIC_NUMBER from rfl]
      rw [if_neg (by simp)]
      rw [show (MAGIC_NUMBER ++
            c.compress (body ++ u32le maps.length ++ mapsB)).drop 8 =
          c.compress (body ++ u32le maps.length ++ mapsB) from rfl]
      rw [hc, List.append_assoc, hread]
      simp only [liftF, okBind]
      simp only [h0p, r0p, h1p, r1p, h2p, r2p, h3p, r3p]
      cases desc <;> cases cover <;>
        simp only [Option.map, okBind] <;>
        rw [readU32_u32le maps.length (by omega)] <;>
        simp only [liftRawRead, okBind] <;>
        rw [hrm] <;>
        rfl

/-- C3: writing and re-reading a `Beatmap` or a `Playlist` whose
custom-data map lives outside the record's reserved identifiers (0–5 for
beatmaps, 0–3 for playlists, part of the records' well-formedness) yields
the *identical* record — in particular every custom entry is present
unchanged and retrievable from the decoded custom-data map. -/
theorem C3_custom_data_preserved :
    (∀ (b : Beatmap) (bytes extra : List Nat), b.wfB = true →
        Beatmap.write b = .ok bytes →
        Beatmap.read (bytes ++ extra) false = .ok (b, extra)) ∧
    (∀ (c : Codec) (p : Playlist) (bytes : List Nat),
        (∀ x, c.decompress (c.compress x) = x) → p.wfP = true →
        Playlist.write c p = .ok bytes →
        Playlist.read c bytes false = .ok p) :=
  ⟨fun b bytes extra hwf hw => beatmap_write_read b bytes extra hwf hw,
   fun c p bytes hc hwf hw => playlist_write_read c p bytes hc hwf hw⟩

/-- Witness for C3: a beatmap carrying custom field 7 and a playlist
carrying custom field 9 (and that beatmap) round-trip exactly, custom
entries retrievable afterwards; the playlist uses the identity codec. -/
theorem C3_custom_data_preserved_witness :
    (∃ bytes, Beatmap.write
        { ty := .key, dateAdded := 42, key := some 2112, hash := none,
          zip := none, levelId := none,
          customData := [(7, Value.u8 5)] } = .ok bytes ∧
      Beatmap.read (bytes ++ [3]) false =
        .ok ({ ty := .key, dateAdded := 42, key := some 2112, hash := none,
               zip := none, levelId := none,
               customData := [(7, Value.u8 5)] }, [3]) ∧
      lookupKV [(7, Value.u8 5)] 7 = some (Value.u8 5)) ∧
    (∃ bytes, Playlist.write ⟨fun x => x, fun x => x⟩
        { title := [116], author := [109, 101], description := some [100],
          cover := some [2, 1, 1, 2],
          maps := [{ ty := .key, dateAdded := 42, key := some 2112,
                     hash := none, zip := none, levelId := none,
                     customData := [(7, Value.u8 5)] }],
          customData := [(9, Value.float 7)] } = .ok bytes ∧
      Playlist.read ⟨fun x => x, fun x => x⟩ bytes false =
        .ok { title := [116], author := [109, 101], description := some [100],
              cover := some [2, 1, 1, 2],
              maps := [{ ty := .key, dateAdded := 42, key := some 2112,
                         hash := none, zip := none, levelId := none,
                         customData := [(7, Value.u8 5)] }],
              customData := [(9, Value.float 7)] } ∧
      lookupKV [(9, Value.float 7)] 9 = some (Value.float 7)) :=
  ⟨⟨_, rfl, C3_custom_data_preserved.1 _ _ [3] (by decide) rfl, rfl⟩,
   ⟨_, rfl, C3_custom_data_preserved.2 ⟨fun x => x, fun x => x⟩ _ _
      (fun x => rfl) (by decide) rfl, rfl⟩⟩

end Blister
